import Mathlib

/-!
# Verification of the trustforge Markdown → LaTeX rendering pipeline

Shallow embedding of `src/trustforge/pipeline/render_pdf_body.py` and
`src/trustforge/pipeline/render_pdf.py`.  Text is modelled as `List Char`
(`String.data`); Python `re` substitutions used by the source are embedded as
executable recursive functions (fuel-bounded where the recursion skips more
than one character, with fuel `length + 1`, which is always sufficient because
every recursive call consumes at least one character).

Modelling notes:
* Python `str.strip()` / `\s` are modelled on the ASCII whitespace set
  (space, tab, newline, carriage return, vertical tab, form feed).
* `str.splitlines` is modelled for the separators `\n`, `\r\n`, `\r`.
* In `render_pdf`, values that the source obtains from the environment
  (file contents, theme tokens, formatted fractional color components) are
  taken as parameters; the control flow, the template-integrity check and
  the order of external invocations are embedded faithfully.
-/

namespace Trustforge

/-- ASCII whitespace, the characters Python's `str.strip()` and `\s` handle
for the inputs considered here. -/
def isPySpace (c : Char) : Bool :=
  c = ' ' || c = '\t' || c = '\n' || c = '\x0b' || c = '\x0c' || c = '\r'

/-- Remove trailing whitespace characters (used for Python `str.strip`). -/
def dropTrailing (l : List Char) : List Char :=
  (l.reverse.dropWhile isPySpace).reverse

/-- Python `str.strip()` on a list of characters. -/
def pyStripL (l : List Char) : List Char :=
  dropTrailing (l.dropWhile isPySpace)

/-- Python `str.strip()`. -/
def pyStrip (s : String) : String :=
  ⟨pyStripL s.data⟩

/-- One pass of Python `str.replace pat repl` (non-overlapping, left to
right).  `fuel` is called with `l.length + 1`, which always suffices. -/
def replaceFuel (pat repl : List Char) : Nat → List Char → List Char
  | 0, l => l
  | _ + 1, [] => []
  | fuel + 1, c :: t =>
    if pat ≠ [] ∧ pat.isPrefixOf (c :: t) then
      repl ++ replaceFuel pat repl fuel ((c :: t).drop pat.length)
    else
      c :: replaceFuel pat repl fuel t

/-- Python `str.replace` on lists of characters. -/
def replaceL (l pat repl : List Char) : List Char :=
  replaceFuel pat repl (l.length + 1) l

/-- `_LATEX_ESC` from `render_pdf_body.py`: order matters, backslash first. -/
def latexEscTable : List (List Char × List Char) :=
  [ ("\\".data, "\\textbackslash\x7b\x7d".data)
  , ("\x7b".data, "\\\x7b".data)
  , ("\x7d".data, "\\\x7d".data)
  , ("$".data, "\\$".data)
  , ("&".data, "\\&".data)
  , ("#".data, "\\#".data)
  , ("%".data, "\\%".data)
  , ("_".data, "\\_".data)
  , ("~".data, "\\textasciitilde\x7b\x7d".data)
  , ("^".data, "\\textasciicircum\x7b\x7d".data) ]

/-- `_escape_latex` from `render_pdf_body.py`: sequential replacement of the
escape table, then en/em dash conversion. -/
def escapeLatexL (l : List Char) : List Char :=
  let out := latexEscTable.foldl (fun acc p => replaceL acc p.1 p.2) l
  replaceL (replaceL out ['–'] ['-', '-']) ['—'] ['-', '-', '-']

/-- `_escape_latex` on `String`. -/
def escape_latex (s : String) : String :=
  ⟨escapeLatexL s.data⟩

/-- ASCII alphanumeric (the class `[a-zA-Z0-9]`). -/
def isAsciiAlnum (c : Char) : Bool :=
  ('a' ≤ c && c ≤ 'z') || ('A' ≤ c && c ≤ 'Z') || ('0' ≤ c && c ≤ '9')

/-- Collapse consecutive `'-'` characters into one (the effect of the regex
`[^a-zA-Z0-9]+ → "-"` after each offending character was mapped to `'-'`). -/
def collapseDashes : List Char → List Char
  | [] => []
  | [c] => [c]
  | a :: b :: t =>
    if a = '-' && b = '-' then collapseDashes (b :: t)
    else a :: collapseDashes (b :: t)

/-- Python `str.strip("-")`. -/
def stripDashes (l : List Char) : List Char :=
  ((l.dropWhile (· = '-')).reverse.dropWhile (· = '-')).reverse

/-- `_slugify` from `render_pdf_body.py`: lowercase, replace runs of
non-alphanumerics with `'-'`, trim `'-'`, defaulting to `"section"`. -/
def slugifyL (l : List Char) : List Char :=
  let lowered := l.map Char.toLower
  let dashed := lowered.map fun c => if isAsciiAlnum c then c else '-'
  let cleaned := stripDashes (collapseDashes dashed)
  if cleaned = [] then "section".data else cleaned

/-- `_slugify` on `String`. -/
def slugify (s : String) : String :=
  ⟨slugifyL s.data⟩

/-! ## Inline substitutions (`_inline_md_to_tex`)

Each Python `re.sub` is embedded as a left-to-right scanner.  All the regexes
involved delimit their greedy character classes by the excluded delimiter
character, so matching is deterministic: at a candidate start position either
the unique maximal candidate matches or the scanner advances one character.
Fuel is `length + 1`; every recursive call consumes at least one character. -/

/-- Characters allowed in an autolink URL: the class `[^>\s]`. -/
def isUrlChar (c : Char) : Bool :=
  c ≠ '>' && !isPySpace c

/-- `_AUTOLINK_RE.sub`: `<(https?://[^>\s]+)>` → `\url{url}` (URL unescaped,
as in the source). -/
def autolinkFuel : Nat → List Char → List Char
  | 0, l => l
  | _ + 1, [] => []
  | fuel + 1, c :: t =>
    if c = '<' then
      let scheme : List Char :=
        if "https://".data.isPrefixOf t then "https://".data
        else if "http://".data.isPrefixOf t then "http://".data
        else []
      if scheme = [] then '<' :: autolinkFuel fuel t
      else
        let t2 := t.drop scheme.length
        let body := t2.takeWhile isUrlChar
        let rest := t2.dropWhile isUrlChar
        match body, rest with
        | _ :: _, '>' :: rest2 =>
          "\\url\x7b".data ++ scheme ++ body ++ "\x7d".data
            ++ autolinkFuel fuel rest2
        | _, _ => '<' :: autolinkFuel fuel t
    else c :: autolinkFuel fuel t

def autolinkSubL (l : List Char) : List Char :=
  autolinkFuel (l.length + 1) l

/-- `_LINK_RE.sub`: `[text](url)` → `\href{escaped url}{escaped text}`. -/
def linkFuel : Nat → List Char → List Char
  | 0, l => l
  | _ + 1, [] => []
  | fuel + 1, c :: t =>
    if c = '[' then
      let txt := t.takeWhile (· ≠ ']')
      let rest := t.dropWhile (· ≠ ']')
      match txt, rest with
      | _ :: _, ']' :: '(' :: rest2 =>
        let url := rest2.takeWhile (· ≠ ')')
        let rest3 := rest2.dropWhile (· ≠ ')')
        match url, rest3 with
        | _ :: _, ')' :: rest4 =>
          "\\href\x7b".data ++ escapeLatexL url ++ "\x7d\x7b".data
            ++ escapeLatexL txt ++ "\x7d".data ++ linkFuel fuel rest4
        | _, _ => '[' :: linkFuel fuel t
      | _, _ => '[' :: linkFuel fuel t
    else c :: linkFuel fuel t

def linkSubL (l : List Char) : List Char :=
  linkFuel (l.length + 1) l

/-- `_CODE_RE.sub`: `` `inner` `` → `\texttt{escaped inner}`. -/
def codeFuel : Nat → List Char → List Char
  | 0, l => l
  | _ + 1, [] => []
  | fuel + 1, c :: t =>
    if c = '`' then
      let inner := t.takeWhile (· ≠ '`')
      let rest := t.dropWhile (· ≠ '`')
      match inner, rest with
      | _ :: _, '`' :: rest2 =>
        "\\texttt\x7b".data ++ escapeLatexL inner ++ "\x7d".data
          ++ codeFuel fuel rest2
      | _, _ => '`' :: codeFuel fuel t
    else c :: codeFuel fuel t

def codeSubL (l : List Char) : List Char :=
  codeFuel (l.length + 1) l

/-- `_BOLD_RE.sub`: `**inner**` → `\textbf{escaped inner}`. -/
def boldFuel : Nat → List Char → List Char
  | 0, l => l
  | _ + 1, [] => []
  | fuel + 1, c :: t =>
    if c = '*' ∧ t.head? = some '*' then
      let t2 := t.tail
      let inner := t2.takeWhile (· ≠ '*')
      let rest := t2.dropWhile (· ≠ '*')
      match inner, rest with
      | _ :: _, '*' :: '*' :: rest2 =>
        "\\textbf\x7b".data ++ escapeLatexL inner ++ "\x7d".data
          ++ boldFuel fuel rest2
      | _, _ => '*' :: boldFuel fuel t
    else c :: boldFuel fuel t

def boldSubL (l : List Char) : List Char :=
  boldFuel (l.length + 1) l

/-- `_ITALIC_RE.sub`: `(?<!\*)\*([^\*]+)\*(?!\*)` → `\emph{escaped inner}`.
`prev` is the character of the original text preceding the scan position,
giving the negative lookbehind. -/
def italicFuel : Nat → Option Char → List Char → List Char
  | 0, _, l => l
  | _ + 1, _, [] => []
  | fuel + 1, prev, c :: t =>
    if c = '*' ∧ prev ≠ some '*' then
      let inner := t.takeWhile (· ≠ '*')
      let rest := t.dropWhile (· ≠ '*')
      match inner, rest with
      | _ :: _, '*' :: rest2 =>
        if rest2.head? = some '*' then '*' :: italicFuel fuel (some '*') t
        else
          "\\emph\x7b".data ++ escapeLatexL inner ++ "\x7d".data
            ++ italicFuel fuel (some '*') rest2
      | _, _ => '*' :: italicFuel fuel (some '*') t
    else c :: italicFuel fuel (some c) t

def italicSubL (l : List Char) : List Char :=
  italicFuel (l.length + 1) none l

/-- The substitution chain of `_inline_md_to_tex` before the final escape:
autolinks, then links, then code spans, then bold, then italic. -/
def inlineSubsL (l : List Char) : List Char :=
  italicSubL (boldSubL (codeSubL (linkSubL (autolinkSubL l))))

/-- `_inline_md_to_tex` from `render_pdf_body.py`: the substitution chain
followed by `_escape_latex` over the whole result ("Escape the rest"). -/
def inlineMdToTexL (l : List Char) : List Char :=
  escapeLatexL (inlineSubsL l)

/-- `_inline_md_to_tex` on `String`. -/
def inline_md_to_tex (s : String) : String :=
  ⟨inlineMdToTexL s.data⟩

/-- Python `str.join` on lists of characters. -/
def joinSep (sep : List Char) : List (List Char) → List Char
  | [] => []
  | [x] => x
  | x :: y :: t => x ++ sep ++ joinSep sep (y :: t)

/-! ## Heading id annotations (`_HEADING_ID_RE`) -/

/-- The character class of a pandoc heading id. -/
def isIdChar (c : Char) : Bool :=
  isAsciiAlnum c || c = '_' || c = '-'

/-- Does a whole suffix match the anchored pattern of the id annotation
(whitespace, then an id in braces, then whitespace, then end)? -/
def idSuffixMatch (l : List Char) : Bool :=
  match l.dropWhile isPySpace with
  | '\x7b' :: '#' :: rest =>
    let ids := rest.takeWhile isIdChar
    match ids, rest.drop ids.length with
    | _ :: _, '\x7d' :: trail => trail.all isPySpace
    | _, _ => false
  | _ => false

/-- `_HEADING_ID_RE.sub ""`: delete the leftmost (hence unique) suffix that
is a trailing pandoc-style id annotation. -/
def headingIdSubL : List Char → List Char
  | [] => []
  | c :: t => if idSuffixMatch (c :: t) then [] else c :: headingIdSubL t

/-- Id-annotation removal on `String`. -/
def stripHeadingId (s : String) : String :=
  ⟨headingIdSubL s.data⟩

/-! ## Line classification used by the block scanner -/

/-- The fence info-string class `[A-Za-z0-9+_.-]`. -/
def isTagChar (c : Char) : Bool :=
  isAsciiAlnum c || c = '+' || c = '_' || c = '.' || c = '-'

/-- `_FENCE_START_RE` applied to the stripped line: three backticks followed
only by info-string characters; returns the info string. -/
def fenceTag? (l : List Char) : Option (List Char) :=
  match l with
  | '`' :: '`' :: '`' :: rest => if rest.all isTagChar then some rest else none
  | _ => none

/-- `_FENCE_END_RE.match raw`: three backticks at line start, then only
whitespace. -/
def isFenceEnd (raw : List Char) : Bool :=
  "```".data.isPrefixOf raw && (raw.drop 3).all isPySpace

/-- `_BLOCKQUOTE_RE.match raw`: optional whitespace, `>` and at most one
following whitespace character; returns the quoted remainder. -/
def quoteRest? (raw : List Char) : Option (List Char) :=
  match raw.dropWhile isPySpace with
  | '>' :: r =>
    match r with
    | c :: r' => if isPySpace c then some r' else some r
    | [] => some []
  | _ => none

/-- `_HR_RE` applied to the stripped line: three or more hyphens. -/
def isHR (l : List Char) : Bool :=
  l.length ≥ 3 && l.all (· = '-')

/-- `_OL_ITEM_RE` applied to the stripped line: digits, a dot, whitespace,
rest; returns the rest. -/
def olRest? (l : List Char) : Option (List Char) :=
  let ds := l.takeWhile Char.isDigit
  match ds, l.drop ds.length with
  | _ :: _, '.' :: r2 =>
    let ws := r2.takeWhile isPySpace
    if ws = [] then none else some (r2.drop ws.length)
  | _, _ => none

/-- `_PIPE_ROW_RE` applied to the stripped line: starts and ends with a pipe
(two distinct characters). -/
def isPipeLine (l : List Char) : Bool :=
  l.length ≥ 2 && l.head? = some '|' && l.getLast? = some '|'

/-- Split on a separator character, Python `str.split` (never empty). -/
def splitCharAux (sep : Char) : List Char → List Char → List (List Char)
  | [], acc => [acc.reverse]
  | c :: t, acc =>
    if c = sep then acc.reverse :: splitCharAux sep t []
    else splitCharAux sep t (c :: acc)

def splitChar (sep : Char) (l : List Char) : List (List Char) :=
  splitCharAux sep l []

/-- `_split_pipe_row`: strip, remove one leading and one trailing pipe,
split on pipes, strip each cell. -/
def splitPipeRow (row : List Char) : List (List Char) :=
  let rs := pyStripL row
  let rs := if rs.head? = some '|' then rs.tail else rs
  let rs := if rs.getLast? = some '|' then rs.dropLast else rs
  (splitChar '|' rs).map pyStripL

/-- `_SEP_CELL_RE`: optional whitespace, optional colon, three or more
hyphens, optional colon, optional whitespace. -/
def isSepCell (cell : List Char) : Bool :=
  let c0 := pyStripL cell
  let c1 := if c0.head? = some ':' then c0.tail else c0
  let ds := c1.takeWhile (· = '-')
  let rest := c1.drop ds.length
  ds.length ≥ 3 && (rest = [] || rest = [':'])

/-- `_is_separator_row`. -/
def isSeparatorRow (cells : List (List Char)) : Bool :=
  !cells.isEmpty && cells.all isSepCell

/-- `_align_from_sep_cell`. -/
def alignFromSepCell (cell : List Char) : List Char :=
  let left := cell.head? = some ':'
  let right := cell.getLast? = some ':'
  if left && right then "c".data
  else if right then "r".data
  else "l".data

/-! ## Emitted fragments

The scanner's `out` list is embedded as a list of tagged emissions; the tag
records which `out.append` in the source produced the entry, and
`renderEmit` recovers the exact string the source appends. -/

inductive Emit where
  | ctrl (s : List Char)
  | code (s : List Char)
  | txt (s : List Char)
  | heading (lvl : Nat) (text : List Char)
  | tableRow (cells : List (List Char))
  deriving DecidableEq, Repr

/-- The sectioning command opening a heading line of a given level. -/
def headingOpenL (lvl : Nat) : List Char :=
  match lvl with
  | 1 => "\\section\x7b".data
  | 2 => "\\subsection\x7b".data
  | 3 => "\\subsubsection\x7b".data
  | _ => []

/-- The closing-brace/label text between heading text and slug. -/
def headingMidL (lvl : Nat) : List Char :=
  match lvl with
  | 1 => "\x7d\\label\x7bsec:".data
  | 2 => "\x7d\\label\x7bsubsec:".data
  | 3 => "\x7d\\label\x7bsubsubsec:".data
  | _ => []

/-- The heading line emitted by the scanner (levels 1–3; other levels are
never produced): sectioning command, inline-transformed text, label with the
slug — exactly the string concatenation of the source's heading branches. -/
def headingLineL (lvl : Nat) (text : List Char) : List Char :=
  headingOpenL lvl ++ inlineMdToTexL text ++ headingMidL lvl ++ slugifyL text ++ "\x7d".data

/-- The string an emission contributes to `out`. -/
def renderEmit : Emit → List Char
  | .ctrl s => s
  | .code s => s
  | .txt s => s
  | .heading lvl t => headingLineL lvl t
  | .tableRow cells => joinSep " & ".data cells ++ " \\\\".data

/-! ## Table assembly (`_emit_table`) -/

/-- Alignment list, header row and body rows, as chosen by `_emit_table`. -/
def tableParts (rows : List (List (List Char))) :
    List (List Char) × List (List Char) × List (List (List Char)) :=
  match rows with
  | [] => ([], [], [])
  | r0 :: rest =>
    match rest with
    | r1 :: rest2 =>
      if isSeparatorRow r1 then (r1.map alignFromSepCell, r0, rest2)
      else (List.replicate r0.length "l".data, r0, r1 :: rest2)
    | [] => (List.replicate r0.length "l".data, r0, [])

/-- The alignment list chosen by `_emit_table`. -/
def tableAligns (rows : List (List (List Char))) : List (List Char) :=
  (tableParts rows).1

/-- The header row chosen by `_emit_table`. -/
def tableHeaderRow (rows : List (List (List Char))) : List (List Char) :=
  (tableParts rows).2.1

/-- The body rows chosen by `_emit_table`. -/
def tableBodyRows (rows : List (List (List Char))) : List (List (List Char)) :=
  (tableParts rows).2.2

/-- `ncols = len(aligns) if aligns else len(header)`. -/
def tableNcols (rows : List (List (List Char))) : Nat :=
  if tableAligns rows = [] then (tableHeaderRow rows).length
  else (tableAligns rows).length

/-- Pad with empty cells or truncate to the fixed column count
(`emit_row`'s normalization of the escaped cells). -/
def padTruncRow (ncols : Nat) (esc : List (List Char)) : List (List Char) :=
  if esc.length < ncols then esc ++ List.replicate (ncols - esc.length) []
  else esc.take ncols

/-- `emit_row`: inline-transform the cells, normalize the cell count, emit
the row and a rule. -/
def emitRowE (ncols : Nat) (cells : List (List Char)) : List Emit :=
  [Emit.tableRow (padTruncRow ncols (cells.map inlineMdToTexL)),
   Emit.ctrl "\\hline".data]

/-- `_emit_table` (the `has_header` flag only guards a `pass` in the source
and is dropped). -/
def emitTable (rows : List (List (List Char))) : List Emit :=
  if rows = [] then []
  else
    let ncols := tableNcols rows
    let fmt := joinSep "|".data
      (if tableAligns rows = [] then List.replicate ncols "l".data else tableAligns rows)
    [Emit.ctrl ("\\begin\x7btabular\x7d\x7b".data ++ fmt ++ "\x7d".data),
     Emit.ctrl "\\hline".data]
      ++ emitRowE ncols (tableHeaderRow rows)
      ++ ((tableBodyRows rows).map (emitRowE ncols)).flatten
      ++ [Emit.ctrl "\\end\x7btabular\x7d".data, Emit.ctrl []]

/-! ## The block state machine (`md_to_latex_body`) -/

structure St where
  out : List Emit
  para_buf : List (List Char)
  in_ul : Bool
  in_ol : Bool
  in_code : Bool
  code_buf : List (List Char)
  code_lang : Option (List Char)
  in_quote : Bool
  table_buf : List (List (List Char))
  deriving DecidableEq, Repr

def initSt : St :=
  ⟨[], [], false, false, false, [], none, false, []⟩

/-- `" ".join`. -/
def joinSpace (ls : List (List Char)) : List Char :=
  joinSep [' '] ls

def flushPara (st : St) : St :=
  if st.para_buf = [] then st
  else { st with
    out := st.out ++ [Emit.txt (inlineMdToTexL (joinSpace st.para_buf)), Emit.ctrl []],
    para_buf := [] }

def closeUl (st : St) : St :=
  if st.in_ul then
    { st with
      out := st.out ++ [Emit.ctrl "\\end\x7bitemize\x7d".data, Emit.ctrl []]
      in_ul := false }
  else st

def closeOl (st : St) : St :=
  if st.in_ol then
    { st with
      out := st.out ++ [Emit.ctrl "\\end\x7benumerate\x7d".data, Emit.ctrl []]
      in_ol := false }
  else st

def openUl (st : St) : St :=
  let st := if st.in_ol then closeOl st else st
  if st.in_ul then st
  else { st with out := st.out ++ [Emit.ctrl "\\begin\x7bitemize\x7d".data], in_ul := true }

def openOl (st : St) : St :=
  let st := if st.in_ul then closeUl st else st
  if st.in_ol then st
  else { st with out := st.out ++ [Emit.ctrl "\\begin\x7benumerate\x7d".data], in_ol := true }

def closeQuote (st : St) : St :=
  if st.in_quote then
    { st with
      out := st.out ++ [Emit.ctrl "\\end\x7bquote\x7d".data, Emit.ctrl []]
      in_quote := false }
  else st

def flushTable (st : St) : St :=
  if st.table_buf = [] then st
  else { st with out := st.out ++ emitTable st.table_buf, table_buf := [] }

def openQuote (st : St) : St :=
  let st := flushPara st
  let st := closeUl st
  let st := closeOl st
  let st := flushTable st
  if st.in_quote then st
  else { st with out := st.out ++ [Emit.ctrl "\\begin\x7bquote\x7d".data], in_quote := true }

def openCode (lang : Option (List Char)) (st : St) : St :=
  let st := flushPara st
  let st := closeUl st
  let st := closeOl st
  let st := closeQuote st
  let st := flushTable st
  { st with in_code := true,
            code_lang := match lang with | some [] => none | x => x,
            code_buf := [] }

def closeCode (st : St) : St :=
  if st.in_code then
    let caption : List Emit :=
      match st.code_lang with
      | some l =>
        if l = [] then []
        else [Emit.txt ("\\textit\x7b".data ++ escapeLatexL l ++ "\x7d".data)]
      | none => []
    { st with
      out := st.out ++ caption ++ [Emit.ctrl "\\begin\x7bverbatim\x7d".data]
        ++ st.code_buf.map Emit.code
        ++ [Emit.ctrl "\\end\x7bverbatim\x7d".data, Emit.ctrl []],
      in_code := false, code_lang := none, code_buf := [] }
  else st

/-- The heading branch of the main loop: flush everything, strip a trailing
id annotation from the text after the marker, emit heading and blank. -/
def stepHeading (lvl : Nat) (dropN : Nat) (line : List Char) (st : St) : St :=
  let st := flushPara st
  let st := closeUl st
  let st := closeOl st
  let st := closeQuote st
  let st := flushTable st
  let text := headingIdSubL (pyStripL (line.drop dropN))
  { st with out := st.out ++ [Emit.heading lvl text, Emit.ctrl []] }

/-- The tail of the main loop after the fence/quote branches: `line` is the
stripped raw line and the blockquote state has already been closed. -/
def stepMain (st : St) (line : List Char) : St :=
  if isHR line then
          let st := flushPara st
          let st := closeUl st
          let st := closeOl st
          let st := flushTable st
          { st with out := st.out ++ [Emit.ctrl "\\noindent\\hrulefill".data, Emit.ctrl []] }
        else if line = [] then
          flushTable (closeOl (closeUl (flushPara st)))
        else if "# ".data.isPrefixOf line then stepHeading 1 2 line st
        else if "## ".data.isPrefixOf line then stepHeading 2 3 line st
        else if "### ".data.isPrefixOf line then stepHeading 3 4 line st
        else if isPipeLine line then
          let cells := splitPipeRow line
          if cells = [] then st else { st with table_buf := st.table_buf ++ [cells] }
        else
          let st := flushTable st
          if "- ".data.isPrefixOf line || "* ".data.isPrefixOf line then
            let st := flushPara st
            let st := openUl st
            { st with out := st.out
                ++ [Emit.txt ("\\item ".data ++ inlineMdToTexL (pyStripL (line.drop 2)))] }
          else
            match olRest? line with
            | some restOl =>
              let st := flushPara st
              let st := openOl st
              { st with out := st.out
                  ++ [Emit.txt ("\\item ".data ++ inlineMdToTexL (pyStripL restOl))] }
            | none =>
              { st with para_buf := st.para_buf ++ [headingIdSubL line] }

/-- One iteration of the main loop of `md_to_latex_body` on a raw line. -/
def step (st : St) (raw : List Char) : St :=
  if st.in_code then
    if isFenceEnd raw then closeCode st
    else { st with code_buf := st.code_buf ++ [raw] }
  else
    match fenceTag? (pyStripL raw) with
    | some tag => openCode (if tag = [] then none else some tag) st
    | none =>
      match quoteRest? raw with
      | some rest =>
        let st := openQuote st
        { st with out := st.out ++ [Emit.txt (inlineMdToTexL (pyStripL rest))] }
      | none => stepMain (closeQuote st) (pyStripL raw)

/-- The finalization after the loop: flush every open state, the code fence
last. -/
def finalizeSt (st : St) : St :=
  closeCode (flushTable (closeQuote (closeOl (closeUl (flushPara st)))))

/-- Python `str.splitlines` for the separators `\n`, `\r\n`, `\r`. -/
def pyLinesL (l : List Char) : List (List Char) :=
  let n := replaceL (replaceL l "\r\n".data "\n".data) "\r".data "\n".data
  if n = [] then []
  else
    let parts := splitChar '\n' n
    if n.getLast? = some '\n' then parts.dropLast else parts

/-- The full scan state after processing a body. -/
def scanSt (md : String) : St :=
  List.foldl step initSt (pyLinesL md.data)

/-- All emissions of one conversion. -/
def emits (md : String) : List Emit :=
  (finalizeSt (scanSt md)).out

/-- `md_to_latex_body`: join the emitted lines, strip, append a newline.
(The `tokens`/`meta` parameters of the source are unused in its body.) -/
def md_to_latex_body (md : String) : String :=
  ⟨pyStripL (joinSep ['\n'] ((emits md).map renderEmit)) ++ ['\n']⟩

/-- The label text the source writes next to a heading of a given level. -/
def headingLabelL (lvl : Nat) (text : List Char) : List Char :=
  (match lvl with
   | 1 => "sec:".data
   | 2 => "subsec:".data
   | 3 => "subsubsec:".data
   | _ => []) ++ slugifyL text

/-- The heading labels of one render, in document order. -/
def labelsOf (md : String) : List (List Char) :=
  (emits md).filterMap fun e =>
    match e with
    | Emit.heading lvl t => some (headingLabelL lvl t)
    | _ => none

/-- The label a single stripped line would produce, from the heading guards
of the main loop. -/
def lineLabel? (line : List Char) : Option (List Char) :=
  if "# ".data.isPrefixOf line then
    some (headingLabelL 1 (headingIdSubL (pyStripL (line.drop 2))))
  else if "## ".data.isPrefixOf line then
    some (headingLabelL 2 (headingIdSubL (pyStripL (line.drop 3))))
  else if "### ".data.isPrefixOf line then
    some (headingLabelL 3 (headingIdSubL (pyStripL (line.drop 4))))
  else none

/-! ## `render_pdf.py`: template substitution and external invocation

The file has its own smaller escape table and Markdown converter
(`_escape_tex`, `_md_to_latex`), a template-integrity check, and runs the
typesetter twice.  File contents and theme/metadata values are parameters;
the fractional color components (formatted floats) arrive pre-formatted in
`colorBlock`. -/

/-- Python `str.count` (non-overlapping substring occurrences). -/
def countFuel (sub : List Char) : Nat → List Char → Nat
  | 0, _ => 0
  | _ + 1, [] => 0
  | fuel + 1, c :: t =>
    if sub.isPrefixOf (c :: t) then 1 + countFuel sub fuel ((c :: t).drop sub.length)
    else countFuel sub fuel t

def pyCountL (l sub : List Char) : Nat :=
  if sub = [] then l.length + 1 else countFuel sub (l.length + 1) l

def pyCount (s sub : String) : Nat :=
  pyCountL s.data sub.data

/-- The replacement table of `_escape_tex` (a `dict` in the source;
insertion order preserved). -/
def escapeTexTable : List (List Char × List Char) :=
  [ ("\\".data, "\\textbackslash\x7b\x7d".data)
  , ("&".data, "\\&".data)
  , ("%".data, "\\%".data)
  , ("$".data, "\\$".data)
  , ("#".data, "\\#".data)
  , ("_".data, "\\_".data)
  , ("\x7b".data, "\\\x7b".data)
  , ("\x7d".data, "\\\x7d".data)
  , ("~".data, "\\textasciitilde\x7b\x7d".data)
  , ("^".data, "\\textasciicircum\x7b\x7d".data) ]

/-- `_escape_tex` from `render_pdf.py`. -/
def escapeTexL (l : List Char) : List Char :=
  escapeTexTable.foldl (fun acc p => replaceL acc p.1 p.2) l

def escape_tex (s : String) : String :=
  ⟨escapeTexL s.data⟩

/-- `flush_list` of `_md_to_latex`; the accumulator is `(out, in_list)`. -/
def mdFlushList (acc : List (List Char) × Bool) : List (List Char) × Bool :=
  if acc.2 then (acc.1 ++ ["\\end\x7bitemize\x7d".data], false) else acc

/-- One loop iteration of `_md_to_latex`. -/
def mdToLatexStep (acc : List (List Char) × Bool) (raw : List Char) :
    List (List Char) × Bool :=
  let line := dropTrailing raw
  if "### ".data.isPrefixOf line then
    let acc := mdFlushList acc
    (acc.1 ++ ["\\subsubsection\x7b".data ++ escapeTexL (line.drop 4) ++ "\x7d".data], acc.2)
  else if "## ".data.isPrefixOf line then
    let acc := mdFlushList acc
    (acc.1 ++ ["\\subsection\x7b".data ++ escapeTexL (line.drop 3) ++ "\x7d".data], acc.2)
  else if "# ".data.isPrefixOf line then
    let acc := mdFlushList acc
    (acc.1 ++ ["\\section\x7b".data ++ escapeTexL (line.drop 2) ++ "\x7d".data], acc.2)
  else if "- ".data.isPrefixOf (line.dropWhile isPySpace)
       || "* ".data.isPrefixOf (line.dropWhile isPySpace) then
    let ls := line.dropWhile isPySpace
    let acc := if acc.2 then acc else (acc.1 ++ ["\\begin\x7bitemize\x7d".data], true)
    (acc.1 ++ ["\\item ".data ++ escapeTexL (ls.drop 2)], acc.2)
  else if pyStripL line = [] then
    let acc := mdFlushList acc
    (acc.1 ++ [[]], acc.2)
  else
    let acc := mdFlushList acc
    (acc.1 ++ [escapeTexL line], acc.2)

/-- `_md_to_latex` from `render_pdf.py`. -/
def md_to_latex (md : String) : String :=
  let acc := (pyLinesL md.data).foldl mdToLatexStep ([], false)
  let acc := mdFlushList acc
  ⟨pyStripL (joinSep ['\n'] acc.1) ++ ['\n']⟩

/-- Python `str.lstrip "#"`. -/
def lstripHash (l : List Char) : List Char :=
  l.dropWhile (· = '#')

/-- The externally observable actions of `render_pdf` after its pre-flight
checks: writing the `.tex` file and invoking `xelatex`. -/
inductive RenderEvent where
  | writeTex
  | xelatex
  deriving DecidableEq, Repr

/-- `render_pdf` from the template-integrity check onwards: result and the
trace of external actions.  Parameters stand for the values read from the
policy file, the theme and the template file. -/
def render_pdf (latex body_md title subtitle footer marginsStr linkColor
    textColor headingColor headingWeightStr logoHeightStr colorBlock : String)
    (hasLogo : Bool) : Except String String × List RenderEvent :=
  if pyCount latex "BODY CONTENT START" ≠ 1 ∨ pyCount latex "BODY CONTENT END" ≠ 1 then
    (Except.error "PDF template invariant failed: expected single BODY region.", [])
  else
    let body_tex := md_to_latex body_md
    let title_str := if title = "" then "Policy" else title
    let subtitle_str := pyStrip subtitle
    let footer_str := pyStrip footer
    let replacements : List (String × String) :=
      [ ("PAGE_MARGINS_MM", marginsStr)
      , ("LINK_COLOR_HTML", ⟨lstripHash linkColor.data⟩)
      , ("TEXT_COLOR_HTML", ⟨lstripHash textColor.data⟩)
      , ("HEADING_COLOR_HTML", ⟨lstripHash headingColor.data⟩)
      , ("HEADING_WEIGHT", headingWeightStr)
      , ("TITLE_TEXT", title_str)
      , ("SUBTITLE_TEXT", subtitle_str)
      , ("FOOTER_TEXT", footer_str)
      , ("LOGO_HEIGHT_MM", logoHeightStr) ]
    let latex := replacements.foldl
      (fun acc p => (⟨replaceL acc.data p.1.data p.2.data⟩ : String)) latex
    let latex : String := ⟨replaceL latex.data "% COLOR_MACROS_HERE".data colorBlock.data⟩
    let subtitle_block : String :=
      if subtitle_str = "" then ""
      else "\x7b\\vspace\x7b2mm\x7d\\color\x7bTFText\x7d\\Large\\sffamily\\itshape "
        ++ escape_tex subtitle_str ++ "\x7d\\par\n"
    let latex : String := ⟨replaceL latex.data "% SUBTITLE_BLOCK_HERE".data subtitle_block.data⟩
    let footer_block : String :=
      if footer_str = "" then ""
      else "\x7b\\color\x7bTFText\x7d\\small " ++ escape_tex footer_str ++ "\x7d\\par"
    let latex : String := ⟨replaceL latex.data "% FOOTER_BLOCK_HERE".data footer_block.data⟩
    let logo_include : String :=
      if hasLogo then "\\includegraphics[height=" ++ logoHeightStr ++ "mm]\x7blogo.png\x7d"
      else ""
    let latex : String := ⟨replaceL latex.data "% LOGO_INCLUDE_HERE".data logo_include.data⟩
    let latex : String :=
      ⟨replaceL latex.data "% BODY CONTENT START\n% BODY CONTENT END".data body_tex.data⟩
    (Except.ok latex, [RenderEvent.writeTex, RenderEvent.xelatex, RenderEvent.xelatex])

/-! ## Emission descriptions of the state helpers

For each state helper `f` of the scanner, `fEmits st` is the list of
emissions `f` appends to `out`; the `_eq` theorems below show
`f st = st` with `out` extended by `fEmits st` and the fields updated. -/

def flushParaEmits (st : St) : List Emit :=
  if st.para_buf = [] then []
  else [Emit.txt (inlineMdToTexL (joinSpace st.para_buf)), Emit.ctrl []]

def closeUlEmits (st : St) : List Emit :=
  if st.in_ul then [Emit.ctrl "\\end\x7bitemize\x7d".data, Emit.ctrl []] else []

def closeOlEmits (st : St) : List Emit :=
  if st.in_ol then [Emit.ctrl "\\end\x7benumerate\x7d".data, Emit.ctrl []] else []

def openUlEmits (st : St) : List Emit :=
  (if st.in_ol then closeOlEmits st else [])
    ++ (if st.in_ul then [] else [Emit.ctrl "\\begin\x7bitemize\x7d".data])

def openOlEmits (st : St) : List Emit :=
  (if st.in_ul then closeUlEmits st else [])
    ++ (if st.in_ol then [] else [Emit.ctrl "\\begin\x7benumerate\x7d".data])

def closeQuoteEmits (st : St) : List Emit :=
  if st.in_quote then [Emit.ctrl "\\end\x7bquote\x7d".data, Emit.ctrl []] else []

def flushTableEmits (st : St) : List Emit :=
  if st.table_buf = [] then [] else emitTable st.table_buf

def openQuoteEmits (st : St) : List Emit :=
  flushParaEmits st ++ closeUlEmits st ++ closeOlEmits st ++ flushTableEmits st
    ++ (if st.in_quote then [] else [Emit.ctrl "\\begin\x7bquote\x7d".data])

def openCodeEmits (st : St) : List Emit :=
  flushParaEmits st ++ closeUlEmits st ++ closeOlEmits st ++ closeQuoteEmits st
    ++ flushTableEmits st

def closeCodeEmits (st : St) : List Emit :=
  if st.in_code then
    (match st.code_lang with
     | some l =>
       if l = [] then []
       else [Emit.txt ("\\textit\x7b".data ++ escapeLatexL l ++ "\x7d".data)]
     | none => [])
      ++ [Emit.ctrl "\\begin\x7bverbatim\x7d".data]
      ++ st.code_buf.map Emit.code
      ++ [Emit.ctrl "\\end\x7bverbatim\x7d".data, Emit.ctrl []]
  else []

/-! ## Invariant vocabulary -/

/-- A string that has passed through `_escape_latex` as a whole. -/
def EscapedL (s : List Char) : Prop :=
  ∃ t, s = escapeLatexL t

/-- The fixed structural strings the scanner can emit. -/
def ctrlStrings : List (List Char) :=
  [[], "\\begin\x7bitemize\x7d".data, "\\end\x7bitemize\x7d".data,
   "\\begin\x7benumerate\x7d".data, "\\end\x7benumerate\x7d".data,
   "\\begin\x7bquote\x7d".data, "\\end\x7bquote\x7d".data,
   "\\begin\x7bverbatim\x7d".data, "\\end\x7bverbatim\x7d".data,
   "\\noindent\\hrulefill".data, "\\hline".data, "\\end\x7btabular\x7d".data]

/-- A structural emission: one of the fixed strings, or a `tabular` opener
whose column format consists of alignment letters and pipes only. -/
def CtrlOk (s : List Char) : Prop :=
  s ∈ ctrlStrings
    ∨ ∃ fmt, s = "\\begin\x7btabular\x7d\x7b".data ++ fmt ++ "\x7d".data
        ∧ ∀ c ∈ fmt, c = 'l' ∨ c = 'c' ∨ c = 'r' ∨ c = '|'

/-- Soundness of one emission with respect to the input lines:
code lines are verbatim input lines; every text emission is built from
`_escape_latex` images; table cells are `_escape_latex` images; heading text
is inline-transformed, hence an `_escape_latex` image. -/
def EmitOk (lines : List (List Char)) : Emit → Prop
  | .ctrl s => CtrlOk s
  | .code s => s ∈ lines
  | .txt s => EscapedL s
      ∨ (∃ t, s = "\\item ".data ++ escapeLatexL t)
      ∨ (∃ t, s = "\\textit\x7b".data ++ escapeLatexL t ++ "\x7d".data)
  | .heading _ text => EscapedL (inlineMdToTexL text)
  | .tableRow cells => ∀ u ∈ cells, EscapedL u

/-- Escape soundness of a scanner state: all of `out` is sound and the code
buffer holds only input lines. -/
def StOk (lines : List (List Char)) (st : St) : Prop :=
  (∀ e ∈ st.out, EmitOk lines e) ∧ (∀ s ∈ st.code_buf, s ∈ lines)

/-- The mutual-exclusion invariant that actually holds for the scanner:
the code-block state excludes every other state, the blockquote state
excludes every other state, and the two list states exclude each other. -/
def InvC4 (st : St) : Prop :=
  (st.in_code = true →
     st.para_buf = [] ∧ st.in_ul = false ∧ st.in_ol = false
       ∧ st.in_quote = false ∧ st.table_buf = [])
  ∧ (st.in_quote = true →
     st.para_buf = [] ∧ st.in_ul = false ∧ st.in_ol = false
       ∧ st.in_code = false ∧ st.table_buf = [])
  ∧ ¬(st.in_ul = true ∧ st.in_ol = true)

/-- The heading labels contributed by a list of emissions. -/
def labelsOut (out : List Emit) : List (List Char) :=
  out.filterMap fun e =>
    match e with
    | Emit.heading lvl t => some (headingLabelL lvl t)
    | _ => none

/-! # Theorems -/

set_option maxRecDepth 1000000

/-! ## List utilities -/

theorem dropWhile_self_suffix (p : Char → Bool) (l : List Char) :
    ∃ t, l = t ++ l.dropWhile p := by
  induction l with
  | nil => exact ⟨[], rfl⟩
  | cons a s ih =>
    rw [List.dropWhile_cons]
    split
    · obtain ⟨t, ht⟩ := ih
      exact ⟨a :: t, by rw [List.cons_append, ← ht]⟩
    · exact ⟨[], rfl⟩

theorem dropTrailing_self_append (l : List Char) :
    ∃ t, l = dropTrailing l ++ t := by
  unfold dropTrailing
  obtain ⟨t, ht⟩ := dropWhile_self_suffix isPySpace l.reverse
  refine ⟨t.reverse, ?_⟩
  have h2 := congrArg List.reverse ht
  simpa [List.reverse_append] using h2

theorem head?_append_of_some {α : Type} {a b : List α} {c : α}
    (h : a.head? = some c) : (a ++ b).head? = some c := by
  cases a <;> simp_all

theorem pyStripL_head (l : List Char) (c : Char)
    (h : (pyStripL l).head? = some c) :
    (l.dropWhile isPySpace).head? = some c := by
  unfold pyStripL at h
  obtain ⟨t, ht⟩ := dropTrailing_self_append (l.dropWhile isPySpace)
  rw [ht]
  exact head?_append_of_some h

theorem dropWhile_head?_not (p : Char → Bool) (l : List Char) (c : Char)
    (h : (l.dropWhile p).head? = some c) : p c = false := by
  induction l with
  | nil => simp at h
  | cons a s ih =>
    rw [List.dropWhile_cons] at h
    split at h
    · exact ih h
    · next hp =>
      simp only [List.head?_cons, Option.some.injEq] at h
      rw [← h]
      exact Bool.not_eq_true _ ▸ by simpa using hp

/-! ## Characterizations of the state helpers -/

theorem flushPara_eq (st : St) :
    flushPara st = { st with out := st.out ++ flushParaEmits st, para_buf := [] } := by
  obtain ⟨o, p, ul, ol, cd, cb, cl, q, tb⟩ := st
  by_cases h : p = [] <;> simp_all [flushPara, flushParaEmits]

theorem closeUl_eq (st : St) :
    closeUl st = { st with out := st.out ++ closeUlEmits st, in_ul := false } := by
  obtain ⟨o, p, ul, ol, cd, cb, cl, q, tb⟩ := st
  by_cases h : ul = true <;> simp_all [closeUl, closeUlEmits]

theorem closeOl_eq (st : St) :
    closeOl st = { st with out := st.out ++ closeOlEmits st, in_ol := false } := by
  obtain ⟨o, p, ul, ol, cd, cb, cl, q, tb⟩ := st
  by_cases h : ol = true <;> simp_all [closeOl, closeOlEmits]

theorem openUl_eq (st : St) :
    openUl st = { st with out := st.out ++ openUlEmits st, in_ul := true, in_ol := false } := by
  obtain ⟨o, p, ul, ol, cd, cb, cl, q, tb⟩ := st
  by_cases h1 : ol = true <;> by_cases h2 : ul = true <;>
    simp_all [openUl, closeOl, openUlEmits, closeOlEmits]

theorem openOl_eq (st : St) :
    openOl st = { st with out := st.out ++ openOlEmits st, in_ol := true, in_ul := false } := by
  obtain ⟨o, p, ul, ol, cd, cb, cl, q, tb⟩ := st
  by_cases h1 : ul = true <;> by_cases h2 : ol = true <;>
    simp_all [openOl, closeUl, openOlEmits, closeUlEmits]

theorem closeQuote_eq (st : St) :
    closeQuote st = { st with out := st.out ++ closeQuoteEmits st, in_quote := false } := by
  obtain ⟨o, p, ul, ol, cd, cb, cl, q, tb⟩ := st
  by_cases h : q = true <;> simp_all [closeQuote, closeQuoteEmits]

theorem flushTable_eq (st : St) :
    flushTable st = { st with out := st.out ++ flushTableEmits st, table_buf := [] } := by
  obtain ⟨o, p, ul, ol, cd, cb, cl, q, tb⟩ := st
  by_cases h : tb = [] <;> simp_all [flushTable, flushTableEmits]

theorem openQuote_eq (st : St) :
    openQuote st = { st with
      out := st.out ++ openQuoteEmits st
      para_buf := []
      in_ul := false
      in_ol := false
      table_buf := []
      in_quote := true } := by
  obtain ⟨o, p, ul, ol, cd, cb, cl, q, tb⟩ := st
  by_cases h1 : p = [] <;> by_cases h2 : ul = true <;> by_cases h3 : ol = true <;>
    by_cases h4 : tb = [] <;> by_cases h5 : q = true <;>
    simp_all [openQuote, flushPara, closeUl, closeOl, flushTable, openQuoteEmits,
      flushParaEmits, closeUlEmits, closeOlEmits, flushTableEmits]

theorem openCode_eq (lang : Option (List Char)) (st : St) :
    openCode lang st = { st with
      out := st.out ++ openCodeEmits st
      para_buf := []
      in_ul := false
      in_ol := false
      in_quote := false
      table_buf := []
      in_code := true
      code_lang := match lang with | some [] => none | x => x
      code_buf := [] } := by
  obtain ⟨o, p, ul, ol, cd, cb, cl, q, tb⟩ := st
  by_cases h1 : p = [] <;> by_cases h2 : ul = true <;> by_cases h3 : ol = true <;>
    by_cases h4 : q = true <;> by_cases h5 : tb = [] <;>
    simp_all [openCode, flushPara, closeUl, closeOl, closeQuote, flushTable,
      openCodeEmits, flushParaEmits, closeUlEmits, closeOlEmits, closeQuoteEmits,
      flushTableEmits]


/-! ## Field projections of the state helpers -/

@[simp] theorem flushPara_out (st : St) : (flushPara st).out = st.out ++ flushParaEmits st := by
  rw [flushPara_eq]

@[simp] theorem flushPara_para_buf (st : St) : (flushPara st).para_buf = [] := by
  rw [flushPara_eq]

@[simp] theorem flushPara_in_ul (st : St) : (flushPara st).in_ul = st.in_ul := by
  rw [flushPara_eq]

@[simp] theorem flushPara_in_ol (st : St) : (flushPara st).in_ol = st.in_ol := by
  rw [flushPara_eq]

@[simp] theorem flushPara_in_code (st : St) : (flushPara st).in_code = st.in_code := by
  rw [flushPara_eq]

@[simp] theorem flushPara_code_buf (st : St) : (flushPara st).code_buf = st.code_buf := by
  rw [flushPara_eq]

@[simp] theorem flushPara_code_lang (st : St) : (flushPara st).code_lang = st.code_lang := by
  rw [flushPara_eq]

@[simp] theorem flushPara_in_quote (st : St) : (flushPara st).in_quote = st.in_quote := by
  rw [flushPara_eq]

@[simp] theorem flushPara_table_buf (st : St) : (flushPara st).table_buf = st.table_buf := by
  rw [flushPara_eq]

@[simp] theorem closeUl_out (st : St) : (closeUl st).out = st.out ++ closeUlEmits st := by
  rw [closeUl_eq]

@[simp] theorem closeUl_para_buf (st : St) : (closeUl st).para_buf = st.para_buf := by
  rw [closeUl_eq]

@[simp] theorem closeUl_in_ul (st : St) : (closeUl st).in_ul = false := by
  rw [closeUl_eq]

@[simp] theorem closeUl_in_ol (st : St) : (closeUl st).in_ol = st.in_ol := by
  rw [closeUl_eq]

@[simp] theorem closeUl_in_code (st : St) : (closeUl st).in_code = st.in_code := by
  rw [closeUl_eq]

@[simp] theorem closeUl_code_buf (st : St) : (closeUl st).code_buf = st.code_buf := by
  rw [closeUl_eq]

@[simp] theorem closeUl_code_lang (st : St) : (closeUl st).code_lang = st.code_lang := by
  rw [closeUl_eq]

@[simp] theorem closeUl_in_quote (st : St) : (closeUl st).in_quote = st.in_quote := by
  rw [closeUl_eq]

@[simp] theorem closeUl_table_buf (st : St) : (closeUl st).table_buf = st.table_buf := by
  rw [closeUl_eq]

@[simp] theorem closeOl_out (st : St) : (closeOl st).out = st.out ++ closeOlEmits st := by
  rw [closeOl_eq]

@[simp] theorem closeOl_para_buf (st : St) : (closeOl st).para_buf = st.para_buf := by
  rw [closeOl_eq]

@[simp] theorem closeOl_in_ul (st : St) : (closeOl st).in_ul = st.in_ul := by
  rw [closeOl_eq]

@[simp] theorem closeOl_in_ol (st : St) : (closeOl st).in_ol = false := by
  rw [closeOl_eq]

@[simp] theorem closeOl_in_code (st : St) : (closeOl st).in_code = st.in_code := by
  rw [closeOl_eq]

@[simp] theorem closeOl_code_buf (st : St) : (closeOl st).code_buf = st.code_buf := by
  rw [closeOl_eq]

@[simp] theorem closeOl_code_lang (st : St) : (closeOl st).code_lang = st.code_lang := by
  rw [closeOl_eq]

@[simp] theorem closeOl_in_quote (st : St) : (closeOl st).in_quote = st.in_quote := by
  rw [closeOl_eq]

@[simp] theorem closeOl_table_buf (st : St) : (closeOl st).table_buf = st.table_buf := by
  rw [closeOl_eq]

@[simp] theorem openUl_out (st : St) : (openUl st).out = st.out ++ openUlEmits st := by
  rw [openUl_eq]

@[simp] theorem openUl_para_buf (st : St) : (openUl st).para_buf = st.para_buf := by
  rw [openUl_eq]

@[simp] theorem openUl_in_ul (st : St) : (openUl st).in_ul = true := by
  rw [openUl_eq]

@[simp] theorem openUl_in_ol (st : St) : (openUl st).in_ol = false := by
  rw [openUl_eq]

@[simp] theorem openUl_in_code (st : St) : (openUl st).in_code = st.in_code := by
  rw [openUl_eq]

@[simp] theorem openUl_code_buf (st : St) : (openUl st).code_buf = st.code_buf := by
  rw [openUl_eq]

@[simp] theorem openUl_code_lang (st : St) : (openUl st).code_lang = st.code_lang := by
  rw [openUl_eq]

@[simp] theorem openUl_in_quote (st : St) : (openUl st).in_quote = st.in_quote := by
  rw [openUl_eq]

@[simp] theorem openUl_table_buf (st : St) : (openUl st).table_buf = st.table_buf := by
  rw [openUl_eq]

@[simp] theorem openOl_out (st : St) : (openOl st).out = st.out ++ openOlEmits st := by
  rw [openOl_eq]

@[simp] theorem openOl_para_buf (st : St) : (openOl st).para_buf = st.para_buf := by
  rw [openOl_eq]

@[simp] theorem openOl_in_ul (st : St) : (openOl st).in_ul = false := by
  rw [openOl_eq]

@[simp] theorem openOl_in_ol (st : St) : (openOl st).in_ol = true := by
  rw [openOl_eq]

@[simp] theorem openOl_in_code (st : St) : (openOl st).in_code = st.in_code := by
  rw [openOl_eq]

@[simp] theorem openOl_code_buf (st : St) : (openOl st).code_buf = st.code_buf := by
  rw [openOl_eq]

@[simp] theorem openOl_code_lang (st : St) : (openOl st).code_lang = st.code_lang := by
  rw [openOl_eq]

@[simp] theorem openOl_in_quote (st : St) : (openOl st).in_quote = st.in_quote := by
  rw [openOl_eq]

@[simp] theorem openOl_table_buf (st : St) : (openOl st).table_buf = st.table_buf := by
  rw [openOl_eq]

@[simp] theorem closeQuote_out (st : St) : (closeQuote st).out = st.out ++ closeQuoteEmits st := by
  rw [closeQuote_eq]

@[simp] theorem closeQuote_para_buf (st : St) : (closeQuote st).para_buf = st.para_buf := by
  rw [closeQuote_eq]

@[simp] theorem closeQuote_in_ul (st : St) : (closeQuote st).in_ul = st.in_ul := by
  rw [closeQuote_eq]

@[simp] theorem closeQuote_in_ol (st : St) : (closeQuote st).in_ol = st.in_ol := by
  rw [closeQuote_eq]

@[simp] theorem closeQuote_in_code (st : St) : (closeQuote st).in_code = st.in_code := by
  rw [closeQuote_eq]

@[simp] theorem closeQuote_code_buf (st : St) : (closeQuote st).code_buf = st.code_buf := by
  rw [closeQuote_eq]

@[simp] theorem closeQuote_code_lang (st : St) : (closeQuote st).code_lang = st.code_lang := by
  rw [closeQuote_eq]

@[simp] theorem closeQuote_in_quote (st : St) : (closeQuote st).in_quote = false := by
  rw [closeQuote_eq]

@[simp] theorem closeQuote_table_buf (st : St) : (closeQuote st).table_buf = st.table_buf := by
  rw [closeQuote_eq]

@[simp] theorem flushTable_out (st : St) : (flushTable st).out = st.out ++ flushTableEmits st := by
  rw [flushTable_eq]

@[simp] theorem flushTable_para_buf (st : St) : (flushTable st).para_buf = st.para_buf := by
  rw [flushTable_eq]

@[simp] theorem flushTable_in_ul (st : St) : (flushTable st).in_ul = st.in_ul := by
  rw [flushTable_eq]

@[simp] theorem flushTable_in_ol (st : St) : (flushTable st).in_ol = st.in_ol := by
  rw [flushTable_eq]

@[simp] theorem flushTable_in_code (st : St) : (flushTable st).in_code = st.in_code := by
  rw [flushTable_eq]

@[simp] theorem flushTable_code_buf (st : St) : (flushTable st).code_buf = st.code_buf := by
  rw [flushTable_eq]

@[simp] theorem flushTable_code_lang (st : St) : (flushTable st).code_lang = st.code_lang := by
  rw [flushTable_eq]

@[simp] theorem flushTable_in_quote (st : St) : (flushTable st).in_quote = st.in_quote := by
  rw [flushTable_eq]

@[simp] theorem flushTable_table_buf (st : St) : (flushTable st).table_buf = [] := by
  rw [flushTable_eq]

@[simp] theorem openQuote_out (st : St) : (openQuote st).out = st.out ++ openQuoteEmits st := by
  rw [openQuote_eq]

@[simp] theorem openQuote_para_buf (st : St) : (openQuote st).para_buf = [] := by
  rw [openQuote_eq]

@[simp] theorem openQuote_in_ul (st : St) : (openQuote st).in_ul = false := by
  rw [openQuote_eq]

@[simp] theorem openQuote_in_ol (st : St) : (openQuote st).in_ol = false := by
  rw [openQuote_eq]

@[simp] theorem openQuote_in_code (st : St) : (openQuote st).in_code = st.in_code := by
  rw [openQuote_eq]

@[simp] theorem openQuote_code_buf (st : St) : (openQuote st).code_buf = st.code_buf := by
  rw [openQuote_eq]

@[simp] theorem openQuote_code_lang (st : St) : (openQuote st).code_lang = st.code_lang := by
  rw [openQuote_eq]

@[simp] theorem openQuote_in_quote (st : St) : (openQuote st).in_quote = true := by
  rw [openQuote_eq]

@[simp] theorem openQuote_table_buf (st : St) : (openQuote st).table_buf = [] := by
  rw [openQuote_eq]

@[simp] theorem openCode_out (lang : Option (List Char)) (st : St) : (openCode lang st).out = st.out ++ openCodeEmits st := by
  rw [openCode_eq]

@[simp] theorem openCode_para_buf (lang : Option (List Char)) (st : St) : (openCode lang st).para_buf = [] := by
  rw [openCode_eq]

@[simp] theorem openCode_in_ul (lang : Option (List Char)) (st : St) : (openCode lang st).in_ul = false := by
  rw [openCode_eq]

@[simp] theorem openCode_in_ol (lang : Option (List Char)) (st : St) : (openCode lang st).in_ol = false := by
  rw [openCode_eq]

@[simp] theorem openCode_in_code (lang : Option (List Char)) (st : St) : (openCode lang st).in_code = true := by
  rw [openCode_eq]

@[simp] theorem openCode_code_buf (lang : Option (List Char)) (st : St) : (openCode lang st).code_buf = [] := by
  rw [openCode_eq]

@[simp] theorem openCode_code_lang (lang : Option (List Char)) (st : St) : (openCode lang st).code_lang = match lang with | some [] => none | x => x := by
  rw [openCode_eq]

@[simp] theorem openCode_in_quote (lang : Option (List Char)) (st : St) : (openCode lang st).in_quote = false := by
  rw [openCode_eq]

@[simp] theorem openCode_table_buf (lang : Option (List Char)) (st : St) : (openCode lang st).table_buf = [] := by
  rw [openCode_eq]

theorem closeCode_eq_not (st : St) (h : st.in_code = false) : closeCode st = st := by
  unfold closeCode
  rw [h]
  simp

theorem closeCode_eq_code (st : St) (h : st.in_code = true) :
    closeCode st = { st with
      out := st.out ++ closeCodeEmits st
      in_code := false
      code_buf := []
      code_lang := none } := by
  obtain ⟨o, p, ul, ol, cd, cb, cl, q, tb⟩ := st
  simp only at h
  subst h
  simp only [closeCode, closeCodeEmits]
  cases cl with
  | none => simp
  | some l => by_cases hl : l = [] <;> simp_all

/-! ## C2: order of code-span and link substitution -/

/-- C2, counterexample: the claim says the inline transformer turns
`` `[a](b)` `` into a code-span macro containing the escaped literal
`[a](b)` (code-span substitution before link substitution); the code does
not produce that output. -/
theorem c2_counterexample :
    inline_md_to_tex "`[a](b)`" ≠ "\\texttt\x7b[a](b)\x7d" := by decide

/-- C2, amended: link substitution runs first, rewriting the bracketed link
inside the backticks to a hyperlink macro; the code-span substitution then
wraps the escaped hyperlink macro in the monospace macro, and the final
full-string escape pass escapes the produced macros once more. -/
theorem c2_link_sub_precedes_code_sub :
    linkSubL "`[a](b)`".data = "`\\href\x7bb\x7d\x7ba\x7d`".data
    ∧ inline_md_to_tex "`[a](b)`"
      = escape_latex ("\\texttt\x7b" ++ escape_latex "\\href\x7bb\x7d\x7ba\x7d" ++ "\x7d") :=
  ⟨by decide, by decide⟩

/-! ## C3: template-integrity check before external invocation -/

/-- C3: if either body marker does not occur exactly once in the template,
`render_pdf` fails with the template-integrity error and its trace of
external actions is empty — no file write and no typesetter invocation. -/
theorem c3_template_error_is_pre_flight
    (latex body_md title subtitle footer marginsStr linkColor textColor
      headingColor headingWeightStr logoHeightStr colorBlock : String)
    (hasLogo : Bool)
    (h : pyCount latex "BODY CONTENT START" ≠ 1 ∨ pyCount latex "BODY CONTENT END" ≠ 1) :
    render_pdf latex body_md title subtitle footer marginsStr linkColor
        textColor headingColor headingWeightStr logoHeightStr colorBlock hasLogo
      = (Except.error "PDF template invariant failed: expected single BODY region.", []) := by
  unfold render_pdf
  rw [if_pos h]

/-- C3, witness: a template without the markers. -/
theorem c3_witness :
    (pyCount "hello" "BODY CONTENT START" ≠ 1 ∨ pyCount "hello" "BODY CONTENT END" ≠ 1)
    ∧ render_pdf "hello" "" "" "" "" "" "" "" "" "" "" "" false
      = (Except.error "PDF template invariant failed: expected single BODY region.", []) :=
  ⟨Or.inl (by decide),
   c3_template_error_is_pre_flight "hello" "" "" "" "" "" "" "" "" "" "" "" false
     (Or.inl (by decide))⟩

/-! ## C6: table column-count normalization -/

theorem padTruncRow_length (n : Nat) (l : List (List Char)) :
    (padTruncRow n l).length = n := by
  unfold padTruncRow
  split
  · simp only [List.length_append, List.length_replicate]
    omega
  · simp only [List.length_take]
    omega

theorem tableRow_mem_emitRowE {n : Nat} {cells r : List (List Char)}
    (h : Emit.tableRow cells ∈ emitRowE n r) : cells.length = n := by
  simp only [emitRowE, List.mem_cons, List.not_mem_nil, or_false] at h
  rcases h with h | h
  · rw [Emit.tableRow.injEq] at h
    rw [h]
    exact padTruncRow_length _ _
  · exact Emit.noConfusion h

/-- C6: every row emitted by the table assembler has exactly the column
count fixed by the header/alignment row (shorter rows padded, longer rows
truncated, never an error), and concretely a 3-cell header with a 2-cell
body row yields two 3-cell rows, the short one padded with one empty cell. -/
theorem c6_table_rows_have_fixed_width :
    (∀ (rows : List (List (List Char))) (cells : List (List Char)),
        Emit.tableRow cells ∈ emitTable rows → cells.length = tableNcols rows)
    ∧ emitTable [["a".data, "b".data, "c".data], ["x".data, "y".data]]
      = [Emit.ctrl "\\begin\x7btabular\x7d\x7bl|l|l\x7d".data,
         Emit.ctrl "\\hline".data,
         Emit.tableRow ["a".data, "b".data, "c".data],
         Emit.ctrl "\\hline".data,
         Emit.tableRow ["x".data, "y".data, []],
         Emit.ctrl "\\hline".data,
         Emit.ctrl "\\end\x7btabular\x7d".data, Emit.ctrl []] := by
  constructor
  · intro rows cells h
    unfold emitTable at h
    split at h
    · simp at h
    · simp only [List.mem_append] at h
      rcases h with ((h | h) | h) | h
      · simp at h
      · exact tableRow_mem_emitRowE h
      · rw [List.mem_flatten] at h
        rcases h with ⟨es, hes, h⟩
        rw [List.mem_map] at hes
        rcases hes with ⟨r, _, rfl⟩
        exact tableRow_mem_emitRowE h
      · simp at h
  · decide

/-- C6, witness: the general part applied to the concrete ragged table. -/
theorem c6_witness :
    Emit.tableRow ["x".data, "y".data, []]
      ∈ emitTable [["a".data, "b".data, "c".data], ["x".data, "y".data]]
    ∧ (["x".data, "y".data, ([] : List Char)]).length
      = tableNcols [["a".data, "b".data, "c".data], ["x".data, "y".data]] :=
  ⟨by decide, c6_table_rows_have_fixed_width.1 _ _ (by decide)⟩

/-! ## C1: heading labels -/

@[simp] theorem labelsOut_nil : labelsOut [] = [] := rfl

@[simp] theorem labelsOut_append (a b : List Emit) :
    labelsOut (a ++ b) = labelsOut a ++ labelsOut b :=
  List.filterMap_append _ _ _

@[simp] theorem labelsOut_cons_ctrl (s : List Char) (l : List Emit) :
    labelsOut (Emit.ctrl s :: l) = labelsOut l := rfl

@[simp] theorem labelsOut_cons_code (s : List Char) (l : List Emit) :
    labelsOut (Emit.code s :: l) = labelsOut l := rfl

@[simp] theorem labelsOut_cons_txt (s : List Char) (l : List Emit) :
    labelsOut (Emit.txt s :: l) = labelsOut l := rfl

@[simp] theorem labelsOut_cons_tableRow (cs : List (List Char)) (l : List Emit) :
    labelsOut (Emit.tableRow cs :: l) = labelsOut l := rfl

@[simp] theorem labelsOut_cons_heading (lvl : Nat) (t : List Char) (l : List Emit) :
    labelsOut (Emit.heading lvl t :: l) = headingLabelL lvl t :: labelsOut l := rfl

@[simp] theorem labelsOut_flushParaEmits (st : St) :
    labelsOut (flushParaEmits st) = [] := by
  unfold flushParaEmits
  split <;> rfl

@[simp] theorem labelsOut_closeUlEmits (st : St) :
    labelsOut (closeUlEmits st) = [] := by
  unfold closeUlEmits
  split <;> rfl

@[simp] theorem labelsOut_closeOlEmits (st : St) :
    labelsOut (closeOlEmits st) = [] := by
  unfold closeOlEmits
  split <;> rfl

@[simp] theorem labelsOut_openUlEmits (st : St) :
    labelsOut (openUlEmits st) = [] := by
  unfold openUlEmits
  split <;> split <;> simp

@[simp] theorem labelsOut_openOlEmits (st : St) :
    labelsOut (openOlEmits st) = [] := by
  unfold openOlEmits
  split <;> split <;> simp

@[simp] theorem labelsOut_closeQuoteEmits (st : St) :
    labelsOut (closeQuoteEmits st) = [] := by
  unfold closeQuoteEmits
  split <;> rfl

theorem labelsOut_emitTable (rows : List (List (List Char))) :
    labelsOut (emitTable rows) = [] := by
  rw [labelsOut, List.filterMap_eq_nil_iff]
  intro e he
  unfold emitTable at he
  split at he
  · simp at he
  · simp only [List.mem_append] at he
    rcases he with ((h | h) | h) | h
    · simp only [List.mem_cons, List.not_mem_nil, or_false] at h
      rcases h with rfl | rfl <;> rfl
    · simp only [emitRowE, List.mem_cons, List.not_mem_nil, or_false] at h
      rcases h with rfl | rfl <;> rfl
    · rw [List.mem_flatten] at h
      rcases h with ⟨es, hes, h⟩
      rw [List.mem_map] at hes
      rcases hes with ⟨r, _, rfl⟩
      simp only [emitRowE, List.mem_cons, List.not_mem_nil, or_false] at h
      rcases h with rfl | rfl <;> rfl
    · simp only [List.mem_cons, List.not_mem_nil, or_false] at h
      rcases h with rfl | rfl <;> rfl

@[simp] theorem labelsOut_flushTableEmits (st : St) :
    labelsOut (flushTableEmits st) = [] := by
  unfold flushTableEmits
  split
  · rfl
  · exact labelsOut_emitTable _

@[simp] theorem labelsOut_openQuoteEmits (st : St) :
    labelsOut (openQuoteEmits st) = [] := by
  unfold openQuoteEmits
  split <;> simp

@[simp] theorem labelsOut_openCodeEmits (st : St) :
    labelsOut (openCodeEmits st) = [] := by
  unfold openCodeEmits
  simp

theorem isPrefixOf_cons_of_ne (a b : Char) (as bs : List Char) (h : a ≠ b) :
    (a :: as).isPrefixOf (b :: bs) = false := by
  cases hv : (a :: as).isPrefixOf (b :: bs)
  · rfl
  · have hp := List.isPrefixOf_iff_prefix.mp hv
    rw [List.cons_prefix_cons] at hp
    exact absurd hp.1 h

theorem lineLabel?_not_hash (l : List Char)
    (h : ∀ c, l.head? = some c → c ≠ '#') : lineLabel? l = none := by
  cases l with
  | nil => rfl
  | cons c t =>
    have hc : '#' ≠ c := fun hx => h c rfl hx.symm
    have e1 : "# ".data = '#' :: ' ' :: [] := rfl
    have e2 : "## ".data = '#' :: '#' :: ' ' :: [] := rfl
    have e3 : "### ".data = '#' :: '#' :: '#' :: ' ' :: [] := rfl
    unfold lineLabel?
    rw [e1, e2, e3, isPrefixOf_cons_of_ne _ _ _ _ hc,
      isPrefixOf_cons_of_ne _ _ _ _ hc, isPrefixOf_cons_of_ne _ _ _ _ hc]
    simp

theorem lineLabel?_of_isHR (l : List Char) (h : isHR l = true) :
    lineLabel? l = none := by
  cases l with
  | nil => rfl
  | cons c t =>
    apply lineLabel?_not_hash
    intro d hd
    simp only [List.head?_cons, Option.some.injEq] at hd
    subst hd
    unfold isHR at h
    rw [Bool.and_eq_true, List.all_cons, Bool.and_eq_true] at h
    have := h.2.1
    simp only [decide_eq_true_eq] at this
    subst this
    decide

theorem lineLabel?_quote_line (raw : List Char) (r : List Char)
    (h : raw.dropWhile isPySpace = '>' :: r) : lineLabel? (pyStripL raw) = none := by
  apply lineLabel?_not_hash
  intro c hc
  have hh := pyStripL_head raw c hc
  rw [h] at hh
  simp only [List.head?_cons, Option.some.injEq] at hh
  subst hh
  decide

theorem labelsOut_stepMain (st : St) (line : List Char) :
    labelsOut (stepMain st line).out
      = labelsOut st.out ++ (lineLabel? line).toList
    ∧ (stepMain st line).in_code = st.in_code := by
  unfold stepMain
  split
  · next hHR =>
    rw [lineLabel?_of_isHR line hHR]
    exact ⟨by simp, by simp⟩
  · next hHR =>
    split
    · next hbl =>
      subst hbl
      rw [show lineLabel? ([] : List Char) = none from rfl]
      exact ⟨by simp, by simp⟩
    · next hbl =>
      split
      · next hp1 =>
        rw [show lineLabel? line
            = some (headingLabelL 1 (headingIdSubL (pyStripL (line.drop 2)))) from by
          unfold lineLabel?
          rw [if_pos hp1]]
        exact ⟨by simp [stepHeading], by simp [stepHeading]⟩
      · next hp1 =>
        split
        · next hp2 =>
          rw [show lineLabel? line
              = some (headingLabelL 2 (headingIdSubL (pyStripL (line.drop 3)))) from by
            unfold lineLabel?
            rw [if_neg hp1, if_pos hp2]]
          exact ⟨by simp [stepHeading], by simp [stepHeading]⟩
        · next hp2 =>
          split
          · next hp3 =>
            rw [show lineLabel? line
                = some (headingLabelL 3 (headingIdSubL (pyStripL (line.drop 4)))) from by
              unfold lineLabel?
              rw [if_neg hp1, if_neg hp2, if_pos hp3]]
            exact ⟨by simp [stepHeading], by simp [stepHeading]⟩
          · next hp3 =>
            rw [show lineLabel? line = none from by
              unfold lineLabel?
              rw [if_neg hp1, if_neg hp2, if_neg hp3]]
            split
            · show labelsOut ((if splitPipeRow line = [] then st
                  else { st with table_buf := st.table_buf ++ [splitPipeRow line] }).out)
                    = labelsOut st.out ++ (none : Option (List Char)).toList
                ∧ (if splitPipeRow line = [] then st
                  else { st with table_buf := st.table_buf ++ [splitPipeRow line] }).in_code
                    = st.in_code
              split
              · exact ⟨by simp, rfl⟩
              · exact ⟨by simp, rfl⟩
            · split
              · exact ⟨by simp, by simp⟩
              · split
                · exact ⟨by simp, by simp⟩
                · exact ⟨by simp, by simp⟩

theorem quoteRest?_some (raw rest : List Char) (h : quoteRest? raw = some rest) :
    ∃ r, raw.dropWhile isPySpace = '>' :: r := by
  unfold quoteRest? at h
  rcases hdw : raw.dropWhile isPySpace with _ | ⟨d, dd⟩
  · try rw [hdw] at h
    simp at h
  · try rw [hdw] at h
    split at h
    · next heq =>
      refine ⟨dd, ?_⟩
      try rw [hdw]
      injection heq with h1 h2
      rw [h1]
    · simp at h

theorem labelsOut_step (st : St) (raw : List Char)
    (hcode : st.in_code = false)
    (hfence : fenceTag? (pyStripL raw) = none) :
    labelsOut (step st raw).out
      = labelsOut st.out ++ (lineLabel? (pyStripL raw)).toList
    ∧ (step st raw).in_code = false := by
  have hnc : ¬(st.in_code = true) := by simp [hcode]
  unfold step
  rw [if_neg hnc, hfence]
  cases hq : quoteRest? raw with
  | some rest =>
    obtain ⟨r, hdw⟩ := quoteRest?_some raw rest hq
    rw [lineLabel?_quote_line raw r hdw]
    exact ⟨by simp, by simp [hcode]⟩
  | none =>
    obtain ⟨hA, hB⟩ := labelsOut_stepMain (closeQuote st) (pyStripL raw)
    constructor
    · rw [hA]
      simp
    · rw [hB]
      simp [hcode]

theorem labelsOut_foldl (ls : List (List Char)) (st : St)
    (hf : ∀ l ∈ ls, fenceTag? (pyStripL l) = none)
    (hcode : st.in_code = false) :
    labelsOut (List.foldl step st ls).out
      = labelsOut st.out ++ ls.filterMap (fun l => lineLabel? (pyStripL l))
    ∧ (List.foldl step st ls).in_code = false := by
  induction ls generalizing st with
  | nil => exact ⟨by simp, hcode⟩
  | cons a t ih =>
    rw [List.foldl_cons]
    obtain ⟨hstep, hcode'⟩ :=
      labelsOut_step st a hcode (hf a (List.mem_cons_self a t))
    obtain ⟨hA, hB⟩ := ih (step st a)
      (fun l hl => hf l (List.mem_cons_of_mem a hl)) hcode'
    refine ⟨?_, hB⟩
    rw [hA, hstep, List.filterMap_cons]
    cases hfa : lineLabel? (pyStripL a) <;> simp [List.append_assoc]

theorem labelsOut_finalize (st : St) (hcode : st.in_code = false) :
    labelsOut (finalizeSt st).out = labelsOut st.out := by
  unfold finalizeSt
  rw [closeCode_eq_not _ (by simp [hcode])]
  simp

/-- C1 (amended): heading labels are never deduplicated: in a fence-free
document each heading line contributes the label computed from that line
alone — the level prefix and the bare slug of the id-stripped heading
text — so repeated heading texts receive identical labels and the `-n`
suffix of the claim does not exist. -/
theorem c1_labels_are_bare_slugs (md : String)
    (hf : ∀ l ∈ pyLinesL md.data, fenceTag? (pyStripL l) = none) :
    labelsOf md = (pyLinesL md.data).filterMap fun l => lineLabel? (pyStripL l) := by
  obtain ⟨hA, hB⟩ := labelsOut_foldl (pyLinesL md.data) initSt hf rfl
  show labelsOut (finalizeSt (scanSt md)).out = _
  unfold scanSt
  rw [labelsOut_finalize _ hB, hA]
  rfl

/-- C1, witness: the duplicate-heading document is fence-free, and its
labels are exactly the per-line bare slugs. -/
theorem c1_witness :
    (∀ l ∈ pyLinesL ("# A\n# A merged".data), fenceTag? (pyStripL l) = none)
    ∧ labelsOf "# A\n# A merged"
      = (pyLinesL ("# A\n# A merged".data)).filterMap fun l => lineLabel? (pyStripL l) :=
  ⟨by decide, c1_labels_are_bare_slugs "# A\n# A merged" (by decide)⟩

/-- C1, counterexample: two identical headings receive the identical label
`sec:a` twice — labels are not unique within one render and the second
occurrence is not suffixed `-2`. -/
theorem c1_counterexample :
    labelsOf "# A\n# A" = ["sec:a".data, "sec:a".data]
    ∧ ¬ (labelsOf "# A\n# A").Nodup := by
  exact ⟨by decide, by decide⟩

/-! ## C4: block-state exclusivity -/

/-- C4, counterexample: after scanning a paragraph line followed by a pipe
row, the paragraph buffer and the table buffer are simultaneously
non-empty, and this state is one of the scan states of the render. -/
theorem c4_counterexample :
    (scanSt "text\n| a | b |").para_buf = ["text".data]
    ∧ (scanSt "text\n| a | b |").table_buf = [["a".data, "b".data]]
    ∧ scanSt "text\n| a | b |"
        ∈ List.scanl step initSt (pyLinesL ("text\n| a | b |").data) := by
  refine ⟨by decide, by decide, by decide⟩

theorem flushPara_eq_of_empty (st : St) (h : st.para_buf = []) : flushPara st = st := by
  unfold flushPara
  rw [if_pos h]

theorem closeQuote_eq_of_not (st : St) (h : st.in_quote = false) : closeQuote st = st := by
  unfold closeQuote
  rw [h]
  simp

theorem flushTable_eq_of_empty (st : St) (h : st.table_buf = []) : flushTable st = st := by
  unfold flushTable
  rw [if_pos h]

/-! ## C9: unterminated code fences -/

/-- C9: whenever the scan ends with the code-fence state still open, the
finalization still emits the buffered fence content as a closed verbatim
block (the conversion is total, nothing is raised); concretely the body
"```python\nprint(1)" yields a captioned, closed verbatim block. -/
theorem c9_unterminated_fence_flushed :
    (∀ md : String, (scanSt md).in_code = true →
      ∃ pre, emits md = pre ++ [Emit.ctrl "\\begin\x7bverbatim\x7d".data]
        ++ (scanSt md).code_buf.map Emit.code
        ++ [Emit.ctrl "\\end\x7bverbatim\x7d".data, Emit.ctrl []])
    ∧ md_to_latex_body "```python\nprint(1)"
      = "\\textit\x7bpython\x7d\n\\begin\x7bverbatim\x7d\nprint(1)\n\\end\x7bverbatim\x7d\n" := by
  constructor
  · intro md h
    have hcb : (flushTable (closeQuote (closeOl (closeUl (flushPara (scanSt md)))))).in_code
        = true := by simp [h]
    unfold emits finalizeSt
    rw [closeCode_eq_code _ hcb]
    refine ⟨(flushTable (closeQuote (closeOl (closeUl (flushPara (scanSt md)))))).out
      ++ (match (scanSt md).code_lang with
          | some l =>
            if l = [] then []
            else [Emit.txt ("\\textit\x7b".data ++ escapeLatexL l ++ "\x7d".data)]
          | none => []), ?_⟩
    simp [closeCodeEmits, hcb, h, List.append_assoc]
  · decide

/-- C9, witness: the general statement applied to the concrete
unterminated fence. -/
theorem c9_witness :
    (scanSt "```python\nprint(1)").in_code = true
    ∧ ∃ pre, emits "```python\nprint(1)"
        = pre ++ [Emit.ctrl "\\begin\x7bverbatim\x7d".data]
          ++ (scanSt "```python\nprint(1)").code_buf.map Emit.code
          ++ [Emit.ctrl "\\end\x7bverbatim\x7d".data, Emit.ctrl []] :=
  ⟨by decide, c9_unterminated_fence_flushed.1 "```python\nprint(1)" (by decide)⟩

/-! ## C10: hash lines that are not headings -/

/-- C10: a stripped line starting with a hash that is not one of the three
heading markers (`# `, `## `, `### `) — so in particular four or more
hashes, or a hash not followed by a space — is never emitted as a heading:
with no other block state open it is appended to the paragraph buffer, and
it renders as escaped paragraph text. -/
theorem c10_deep_heading_is_paragraph :
    (∀ (st : St) (t : List Char),
      st.in_code = false → st.in_quote = false → st.table_buf = [] →
      pyStripL ('#' :: t) = '#' :: t →
      ¬"# ".data.isPrefixOf ('#' :: t) →
      ¬"## ".data.isPrefixOf ('#' :: t) →
      ¬"### ".data.isPrefixOf ('#' :: t) →
      step st ('#' :: t)
        = { st with para_buf := st.para_buf ++ [headingIdSubL ('#' :: t)] })
    ∧ md_to_latex_body "#### Notes" = "\\#\\#\\#\\# Notes\n"
    ∧ md_to_latex_body "#Nospace" = "\\#Nospace\n" := by
  refine ⟨?_, by decide, by decide⟩
  intro st t hcode hquote htable hstrip h1 h2 h3
  have hfence : fenceTag? (pyStripL ('#' :: t)) = none := by
    rw [hstrip]
    exact rfl
  have hq : quoteRest? ('#' :: t) = none := rfl
  have hall : ('#' :: t).all (· = '-') = false := by
    rw [List.all_cons]
    simp
  have hHR : isHR ('#' :: t) = false := by
    unfold isHR
    rw [hall, Bool.and_false]
  have hp1 : "- ".data.isPrefixOf ('#' :: t) = false := rfl
  have hp2 : "* ".data.isPrefixOf ('#' :: t) = false := rfl
  have hpipe : isPipeLine ('#' :: t) = false := by
    simp [isPipeLine]
  have holr : olRest? ('#' :: t) = none := rfl
  have hnc : ¬(st.in_code = true) := by simp [hcode]
  unfold step
  rw [if_neg hnc, hfence, hq]
  rw [closeQuote_eq_of_not st hquote, hstrip]
  unfold stepMain
  simp [hHR, hp1, hp2, hpipe, holr, h1, h2, h3,
    flushTable_eq_of_empty st htable]

/-- C10, witness: the general statement at the four-hash line. -/
theorem c10_witness :
    pyStripL ('#' :: "### Notes".data) = '#' :: "### Notes".data
    ∧ step initSt ('#' :: "### Notes".data)
      = { initSt with
          para_buf := initSt.para_buf ++ [headingIdSubL ('#' :: "### Notes".data)] } :=
  ⟨by decide,
   c10_deep_heading_is_paragraph.1 initSt "### Notes".data rfl rfl rfl
     (by decide) (by decide) (by decide) (by decide)⟩

/-! ## C5: escaping discipline -/

theorem escapeLatexL_nil : escapeLatexL [] = [] := rfl

theorem outOk_append {lines : List (List Char)} {out es : List Emit}
    (h : ∀ e ∈ out, EmitOk lines e) (hes : ∀ e ∈ es, EmitOk lines e) :
    ∀ e ∈ out ++ es, EmitOk lines e := by
  intro e he
  rcases List.mem_append.1 he with h' | h'
  · exact h e h'
  · exact hes e h'

theorem stOk_push {lines : List (List Char)} {st : St} (es : List Emit)
    (h : StOk lines st) (hes : ∀ e ∈ es, EmitOk lines e) :
    StOk lines { st with out := st.out ++ es } :=
  ⟨outOk_append h.1 hes, h.2⟩

theorem emitsOk_flushPara (lines : List (List Char)) (st : St) :
    ∀ e ∈ flushParaEmits st, EmitOk lines e := by
  intro e he
  unfold flushParaEmits at he
  split at he
  · simp at he
  · simp only [List.mem_cons, List.not_mem_nil, or_false] at he
    rcases he with rfl | rfl
    · exact Or.inl ⟨inlineSubsL (joinSpace st.para_buf), rfl⟩
    · exact Or.inl (by decide)

theorem emitsOk_closeUl (lines : List (List Char)) (st : St) :
    ∀ e ∈ closeUlEmits st, EmitOk lines e := by
  intro e he
  unfold closeUlEmits at he
  split at he
  · simp only [List.mem_cons, List.not_mem_nil, or_false] at he
    rcases he with rfl | rfl <;> exact Or.inl (by decide)
  · simp at he

theorem emitsOk_closeOl (lines : List (List Char)) (st : St) :
    ∀ e ∈ closeOlEmits st, EmitOk lines e := by
  intro e he
  unfold closeOlEmits at he
  split at he
  · simp only [List.mem_cons, List.not_mem_nil, or_false] at he
    rcases he with rfl | rfl <;> exact Or.inl (by decide)
  · simp at he

theorem emitsOk_openUl (lines : List (List Char)) (st : St) :
    ∀ e ∈ openUlEmits st, EmitOk lines e := by
  intro e he
  unfold openUlEmits at he
  rcases List.mem_append.1 he with h' | h'
  · split at h'
    · exact emitsOk_closeOl lines st e h'
    · simp at h'
  · split at h'
    · simp at h'
    · simp only [List.mem_cons, List.not_mem_nil, or_false] at h'
      subst h'
      exact Or.inl (by decide)

theorem emitsOk_openOl (lines : List (List Char)) (st : St) :
    ∀ e ∈ openOlEmits st, EmitOk lines e := by
  intro e he
  unfold openOlEmits at he
  rcases List.mem_append.1 he with h' | h'
  · split at h'
    · exact emitsOk_closeUl lines st e h'
    · simp at h'
  · split at h'
    · simp at h'
    · simp only [List.mem_cons, List.not_mem_nil, or_false] at h'
      subst h'
      exact Or.inl (by decide)

theorem emitsOk_closeQuote (lines : List (List Char)) (st : St) :
    ∀ e ∈ closeQuoteEmits st, EmitOk lines e := by
  intro e he
  unfold closeQuoteEmits at he
  split at he
  · simp only [List.mem_cons, List.not_mem_nil, or_false] at he
    rcases he with rfl | rfl <;> exact Or.inl (by decide)
  · simp at he

theorem alignFromSepCell_cases (cell : List Char) :
    alignFromSepCell cell = "l".data ∨ alignFromSepCell cell = "c".data
      ∨ alignFromSepCell cell = "r".data := by
  unfold alignFromSepCell
  by_cases h1 : cell.head? = some ':' <;> by_cases h2 : cell.getLast? = some ':' <;>
    simp [h1, h2]

theorem mem_tableAligns (rows : List (List (List Char))) (x : List Char)
    (h : x ∈ tableAligns rows) :
    x = "l".data ∨ x = "c".data ∨ x = "r".data := by
  unfold tableAligns tableParts at h
  rcases rows with _ | ⟨r0, rest⟩
  · simp at h
  · rcases rest with _ | ⟨r1, rest2⟩
    · simp only at h
      rcases List.eq_of_mem_replicate h with rfl
      exact Or.inl rfl
    · simp only at h
      split at h
      · simp only at h
        rw [List.mem_map] at h
        rcases h with ⟨cell, _, rfl⟩
        exact alignFromSepCell_cases cell
      · simp only at h
        rcases List.eq_of_mem_replicate h with rfl
        exact Or.inl rfl

theorem joinSep_chars (sep : List Char) (xs : List (List Char))
    (P : Char → Prop) (hsep : ∀ c ∈ sep, P c)
    (hxs : ∀ x ∈ xs, ∀ c ∈ x, P c) : ∀ c ∈ joinSep sep xs, P c := by
  induction xs with
  | nil => simp [joinSep]
  | cons x t ih =>
    cases t with
    | nil =>
      intro c hc
      exact hxs x (List.mem_cons_self x []) c hc
    | cons y tt =>
      intro c hc
      rw [show joinSep sep (x :: y :: tt) = x ++ sep ++ joinSep sep (y :: tt) from rfl] at hc
      rcases List.mem_append.1 hc with hc' | hc'
      · rcases List.mem_append.1 hc' with hc'' | hc''
        · exact hxs x (List.mem_cons_self x (y :: tt)) c hc''
        · exact hsep c hc''
      · exact ih (fun z hz => hxs z (List.mem_cons_of_mem x hz)) c hc'

theorem mem_padTruncRow (n : Nat) (l : List (List Char)) (u : List Char)
    (h : u ∈ padTruncRow n l) : u ∈ l ∨ u = [] := by
  unfold padTruncRow at h
  split at h
  · rcases List.mem_append.1 h with h' | h'
    · exact Or.inl h'
    · exact Or.inr (List.eq_of_mem_replicate h')
  · exact Or.inl (List.mem_of_mem_take h)

theorem emitsOk_emitRowE (lines : List (List Char)) (n : Nat)
    (r : List (List Char)) : ∀ e ∈ emitRowE n r, EmitOk lines e := by
  intro e he
  simp only [emitRowE, List.mem_cons, List.not_mem_nil, or_false] at he
  rcases he with rfl | rfl
  · intro u hu
    rcases mem_padTruncRow _ _ _ hu with h' | rfl
    · rw [List.mem_map] at h'
      rcases h' with ⟨c, _, rfl⟩
      exact ⟨inlineSubsL c, rfl⟩
    · exact ⟨[], escapeLatexL_nil.symm⟩
  · exact Or.inl (by decide)

theorem emitsOk_emitTable (lines : List (List Char))
    (rows : List (List (List Char))) : ∀ e ∈ emitTable rows, EmitOk lines e := by
  intro e he
  unfold emitTable at he
  split at he
  · simp at he
  · simp only [List.mem_append] at he
    rcases he with ((h | h) | h) | h
    · simp only [List.mem_cons, List.not_mem_nil, or_false] at h
      rcases h with rfl | rfl
      · refine Or.inr ⟨_, rfl, ?_⟩
        refine joinSep_chars _ _ _ (by intro c hc; simp at hc; simp [hc]) ?_
        intro x hx c hc
        have hx' : x = "l".data ∨ x = "c".data ∨ x = "r".data := by
          split at hx
          · rcases List.eq_of_mem_replicate hx with rfl
            exact Or.inl rfl
          · exact mem_tableAligns rows x hx
        rcases hx' with rfl | rfl | rfl <;> simp at hc <;> simp [hc]
      · exact Or.inl (by decide)
    · exact emitsOk_emitRowE lines _ _ e h
    · rw [List.mem_flatten] at h
      rcases h with ⟨es, hes, h⟩
      rw [List.mem_map] at hes
      rcases hes with ⟨r, _, rfl⟩
      exact emitsOk_emitRowE lines _ _ e h
    · simp only [List.mem_cons, List.not_mem_nil, or_false] at h
      rcases h with rfl | rfl <;> exact Or.inl (by decide)

theorem emitsOk_flushTable (lines : List (List Char)) (st : St) :
    ∀ e ∈ flushTableEmits st, EmitOk lines e := by
  intro e he
  unfold flushTableEmits at he
  split at he
  · simp at he
  · exact emitsOk_emitTable lines _ e he

theorem emitsOk_openQuote (lines : List (List Char)) (st : St) :
    ∀ e ∈ openQuoteEmits st, EmitOk lines e := by
  intro e he
  unfold openQuoteEmits at he
  rcases List.mem_append.1 he with h | h
  · rcases List.mem_append.1 h with h | h
    · rcases List.mem_append.1 h with h | h
      · rcases List.mem_append.1 h with h | h
        · exact emitsOk_flushPara lines st e h
        · exact emitsOk_closeUl lines st e h
      · exact emitsOk_closeOl lines st e h
    · exact emitsOk_flushTable lines st e h
  · split at h
    · simp at h
    · simp only [List.mem_cons, List.not_mem_nil, or_false] at h
      subst h
      exact Or.inl (by decide)

theorem emitsOk_openCode (lines : List (List Char)) (st : St) :
    ∀ e ∈ openCodeEmits st, EmitOk lines e := by
  intro e he
  unfold openCodeEmits at he
  rcases List.mem_append.1 he with h | h
  · rcases List.mem_append.1 h with h | h
    · rcases List.mem_append.1 h with h | h
      · rcases List.mem_append.1 h with h | h
        · exact emitsOk_flushPara lines st e h
        · exact emitsOk_closeUl lines st e h
      · exact emitsOk_closeOl lines st e h
    · exact emitsOk_closeQuote lines st e h
  · exact emitsOk_flushTable lines st e h

theorem emitsOk_closeCode (lines : List (List Char)) (st : St)
    (hbuf : ∀ s ∈ st.code_buf, s ∈ lines) :
    ∀ e ∈ closeCodeEmits st, EmitOk lines e := by
  intro e he
  unfold closeCodeEmits at he
  split at he
  · rcases List.mem_append.1 he with h | h
    · rcases List.mem_append.1 h with h | h
      · rcases List.mem_append.1 h with h | h
        · split at h
          · split at h
            · simp at h
            · simp only [List.mem_cons, List.not_mem_nil, or_false] at h
              subst h
              exact Or.inr (Or.inr ⟨_, rfl⟩)
          · simp at h
        · simp only [List.mem_cons, List.not_mem_nil, or_false] at h
          subst h
          exact Or.inl (by decide)
      · rw [List.mem_map] at h
        rcases h with ⟨s, hs, rfl⟩
        exact hbuf s hs
    · simp only [List.mem_cons, List.not_mem_nil, or_false] at h
      rcases h with rfl | rfl <;> exact Or.inl (by decide)
  · simp at he

theorem stOk_stepMain (lines : List (List Char)) (st : St) (line : List Char)
    (h : StOk lines st) : StOk lines (stepMain st line) := by
  have hfl : StOk lines (flushTable (closeOl (closeUl (flushPara st)))) := by
    rw [flushPara_eq, closeUl_eq, closeOl_eq, flushTable_eq]
    refine ⟨?_, h.2⟩
    refine outOk_append (outOk_append (outOk_append (outOk_append h.1
      (emitsOk_flushPara lines _)) (emitsOk_closeUl lines _))
      (emitsOk_closeOl lines _)) (emitsOk_flushTable lines _)
  have h5q : StOk lines (flushTable (closeQuote (closeOl (closeUl (flushPara st))))) := by
    rw [flushPara_eq, closeUl_eq, closeOl_eq, closeQuote_eq, flushTable_eq]
    refine ⟨?_, h.2⟩
    refine outOk_append (outOk_append (outOk_append (outOk_append (outOk_append h.1
      (emitsOk_flushPara lines _)) (emitsOk_closeUl lines _)) (emitsOk_closeOl lines _))
      (emitsOk_closeQuote lines _)) (emitsOk_flushTable lines _)
  have hhd : ∀ lvl dropN, StOk lines (stepHeading lvl dropN line st) := by
    intro lvl dropN
    show StOk lines
      { flushTable (closeQuote (closeOl (closeUl (flushPara st)))) with
        out := (flushTable (closeQuote (closeOl (closeUl (flushPara st))))).out
          ++ [Emit.heading lvl (headingIdSubL (pyStripL (line.drop dropN))), Emit.ctrl []] }
    refine stOk_push _ h5q ?_
    intro e he
    simp only [List.mem_cons, List.not_mem_nil, or_false] at he
    rcases he with rfl | rfl
    · exact ⟨inlineSubsL _, rfl⟩
    · exact Or.inl (by decide)
  unfold stepMain
  split
  · refine ⟨outOk_append hfl.1 ?_, hfl.2⟩
    intro e he
    simp only [List.mem_cons, List.not_mem_nil, or_false] at he
    rcases he with rfl | rfl <;> exact Or.inl (by decide)
  · split
    · exact hfl
    · split
      · exact hhd 1 2
      · split
        · exact hhd 2 3
        · split
          · exact hhd 3 4
          · split
            · show StOk lines (if splitPipeRow line = [] then st
                else { st with table_buf := st.table_buf ++ [splitPipeRow line] })
              split
              · exact h
              · exact ⟨h.1, h.2⟩
            · have hft : StOk lines (flushTable st) := by
                rw [flushTable_eq]
                exact ⟨outOk_append h.1 (emitsOk_flushTable lines _), h.2⟩
              have hfu : StOk lines (openUl (flushPara (flushTable st))) := by
                rw [flushTable_eq, flushPara_eq, openUl_eq]
                refine ⟨?_, h.2⟩
                refine outOk_append (outOk_append (outOk_append h.1
                  (emitsOk_flushTable lines _)) (emitsOk_flushPara lines _))
                  (emitsOk_openUl lines _)
              have hfo : StOk lines (openOl (flushPara (flushTable st))) := by
                rw [flushTable_eq, flushPara_eq, openOl_eq]
                refine ⟨?_, h.2⟩
                refine outOk_append (outOk_append (outOk_append h.1
                  (emitsOk_flushTable lines _)) (emitsOk_flushPara lines _))
                  (emitsOk_openOl lines _)
              split
              · show StOk lines
                  { openUl (flushPara (flushTable st)) with
                    out := (openUl (flushPara (flushTable st))).out
                      ++ [Emit.txt ("\\item ".data
                        ++ inlineMdToTexL (pyStripL (line.drop 2)))] }
                refine stOk_push _ hfu ?_
                intro e he
                simp only [List.mem_cons, List.not_mem_nil, or_false] at he
                subst he
                exact Or.inr (Or.inl ⟨inlineSubsL _, rfl⟩)
              · split
                · next restOl _ =>
                  show StOk lines
                    { openOl (flushPara (flushTable st)) with
                      out := (openOl (flushPara (flushTable st))).out
                        ++ [Emit.txt ("\\item ".data
                          ++ inlineMdToTexL (pyStripL restOl))] }
                  refine stOk_push _ hfo ?_
                  intro e he
                  simp only [List.mem_cons, List.not_mem_nil, or_false] at he
                  subst he
                  exact Or.inr (Or.inl ⟨inlineSubsL _, rfl⟩)
                · exact ⟨hft.1, hft.2⟩

theorem stOk_step (lines : List (List Char)) (st : St) (raw : List Char)
    (hraw : raw ∈ lines) (h : StOk lines st) : StOk lines (step st raw) := by
  unfold step
  split
  · next hcode =>
    split
    · rw [closeCode_eq_code st hcode]
      exact ⟨outOk_append h.1 (emitsOk_closeCode lines st h.2),
        by intro s hs; simp at hs⟩
    · refine ⟨h.1, ?_⟩
      intro s hs
      rcases List.mem_append.1 hs with h' | h'
      · exact h.2 s h'
      · simp only [List.mem_cons, List.not_mem_nil, or_false] at h'
        subst h'
        exact hraw
  · split
    · rw [openCode_eq]
      exact ⟨outOk_append h.1 (emitsOk_openCode lines st),
        by intro s hs; simp at hs⟩
    · split
      · rw [openQuote_eq]
        refine ⟨?_, h.2⟩
        refine outOk_append (outOk_append h.1 (emitsOk_openQuote lines st)) ?_
        intro e he
        simp only [List.mem_cons, List.not_mem_nil, or_false] at he
        subst he
        exact Or.inl ⟨inlineSubsL _, rfl⟩
      · apply stOk_stepMain
        rw [closeQuote_eq]
        exact ⟨outOk_append h.1 (emitsOk_closeQuote lines st), h.2⟩

theorem stOk_foldl (lines : List (List Char)) (ls : List (List Char)) (st : St)
    (hls : ∀ l ∈ ls, l ∈ lines) (h : StOk lines st) :
    StOk lines (List.foldl step st ls) := by
  induction ls generalizing st with
  | nil => exact h
  | cons a t ih =>
    rw [List.foldl_cons]
    exact ih (step st a)
      (fun l hl => hls l (List.mem_cons_of_mem a hl))
      (stOk_step lines st a (hls a (List.mem_cons_self a t)) h)

theorem stOk_finalize (lines : List (List Char)) (st : St)
    (h : StOk lines st) : StOk lines (finalizeSt st) := by
  unfold finalizeSt
  have h5 : StOk lines (flushTable (closeQuote (closeOl (closeUl (flushPara st))))) := by
    rw [flushPara_eq, closeUl_eq, closeOl_eq, closeQuote_eq, flushTable_eq]
    refine ⟨?_, h.2⟩
    refine outOk_append (outOk_append (outOk_append (outOk_append (outOk_append h.1
      (emitsOk_flushPara lines _)) (emitsOk_closeUl lines _)) (emitsOk_closeOl lines _))
      (emitsOk_closeQuote lines _)) (emitsOk_flushTable lines _)
  cases hcd : (flushTable (closeQuote (closeOl (closeUl (flushPara st))))).in_code with
  | false => rw [closeCode_eq_not _ hcd]; exact h5
  | true =>
    rw [closeCode_eq_code _ hcd]
    exact ⟨outOk_append h5.1 (emitsOk_closeCode lines _ h5.2),
      by intro s hs; simp at hs⟩

/-- C5: code-block content is emitted verbatim — every `code` emission is an
unmodified input line — while every other emission is structural or built
from `_escape_latex` images: paragraph, quote, list-item and table-cell text
and fence captions all factor through `_escape_latex` (the inline
transformer itself ends in a full `_escape_latex` pass), and heading text is
inline-transformed, hence also an `_escape_latex` image. -/
theorem c5_code_verbatim_other_text_escaped :
    (∀ (md : String) (e : Emit), e ∈ emits md → EmitOk (pyLinesL md.data) e)
    ∧ (∀ t, ∃ u, inlineMdToTexL t = escapeLatexL u) := by
  constructor
  · intro md e he
    have h0 : StOk (pyLinesL md.data) initSt := by
      constructor
      · intro e' he'
        simp [initSt] at he'
      · intro s hs
        simp [initSt] at hs
    have hfin := stOk_finalize (pyLinesL md.data) _
      (stOk_foldl (pyLinesL md.data) (pyLinesL md.data) initSt (fun l hl => hl) h0)
    exact hfin.1 e he
  · exact fun t => ⟨inlineSubsL t, rfl⟩

/-- C5, witness: a fenced line of the concrete document is a verbatim input
line. -/
theorem c5_witness :
    Emit.code "print(1)".data ∈ emits "```python\nprint(1)\n```\nrest % &"
    ∧ EmitOk (pyLinesL ("```python\nprint(1)\n```\nrest % &").data)
        (Emit.code "print(1)".data) :=
  ⟨by decide,
   c5_code_verbatim_other_text_escaped.1 "```python\nprint(1)\n```\nrest % &"
     (Emit.code "print(1)".data) (by decide)⟩

theorem invC4_stepMain (st : St) (line : List Char)
    (hcode : st.in_code = false) (hquote : st.in_quote = false)
    (hulol : ¬(st.in_ul = true ∧ st.in_ol = true)) :
    InvC4 (stepMain st line) := by
  unfold stepMain
  split
  · simp [InvC4, hcode, hquote]
  · split
    · simp [InvC4, hcode, hquote]
    · split
      · simp [InvC4, stepHeading, hcode, hquote]
      · split
        · simp [InvC4, stepHeading, hcode, hquote]
        · split
          · simp [InvC4, stepHeading, hcode, hquote]
          · split
            · show InvC4 (if splitPipeRow line = [] then st
                else { st with table_buf := st.table_buf ++ [splitPipeRow line] })
              split
              · exact ⟨fun h => absurd h (by simp [hcode]),
                  fun h => absurd h (by simp [hquote]), hulol⟩
              · exact ⟨fun h => absurd h (by simp [hcode]),
                  fun h => absurd h (by simp [hquote]), hulol⟩
            · split
              · simp [InvC4, hcode, hquote]
              · split
                · simp [InvC4, hcode, hquote]
                · exact ⟨fun h => absurd h (by simp [hcode]),
                    fun h => absurd h (by simp [hquote]), by simpa using hulol⟩

theorem invC4_step (st : St) (raw : List Char) (h : InvC4 st) : InvC4 (step st raw) := by
  obtain ⟨hc, hq, hulol⟩ := h
  unfold step
  split
  · next hcode =>
    obtain ⟨hp, hul, hol, hqt, htb⟩ := hc hcode
    split
    · rw [closeCode_eq_code st hcode]
      simp [InvC4, hp, hul, hol, hqt, htb]
    · exact ⟨fun _ => ⟨hp, hul, hol, hqt, htb⟩, fun hh => absurd hh (by simp [hqt]), by
        simp [hul, hol]⟩
  · next hcode =>
    have hcode' : st.in_code = false := by simpa using hcode
    split
    · simp [InvC4]
    · split
      · simp [InvC4, hcode']
      · apply invC4_stepMain
        · simpa using hcode'
        · simp
        · simpa using hulol

theorem invC4_scanl (l : List (List Char)) (s0 : St) (h0 : InvC4 s0) :
    ∀ st ∈ List.scanl step s0 l, InvC4 st := by
  induction l generalizing s0 with
  | nil =>
    intro st hst
    simp only [List.scanl, List.mem_singleton] at hst
    subst hst
    exact h0
  | cons a t ih =>
    intro st hst
    simp only [List.scanl, List.mem_cons] at hst
    rcases hst with rfl | hst
    · exact h0
    · exact ih (step s0 a) (invC4_step s0 a h0) st hst

/-- C4 (amended): the claim of full pairwise exclusion fails (see the
counterexample: a non-empty paragraph buffer and a non-empty table buffer
coexist, and a list can stay open under a filling paragraph buffer), but the
following exclusions do hold at every state of the scan: an open code fence
excludes every other block state, an open blockquote excludes every other
block state, and the two list states are mutually exclusive. -/
theorem c4_code_quote_lists_exclusive (md : String) (st : St)
    (h : st ∈ List.scanl step initSt (pyLinesL md.data)) : InvC4 st :=
  invC4_scanl (pyLinesL md.data) initSt
    (by simp [InvC4, initSt]) st h

/-- C4, witness: the initial state of a one-line scan. -/
theorem c4_witness :
    initSt ∈ List.scanl step initSt (pyLinesL "a".data) ∧ InvC4 initSt :=
  ⟨by decide, c4_code_quote_lists_exclusive "a" initSt (by decide)⟩

/-! ## C7: explicit heading ids -/

theorem takeWhile_append_single (p : Char → Bool) (id : List Char) (a : Char)
    (h : ∀ c ∈ id, p c = true) (ha : p a = false) :
    (id ++ [a]).takeWhile p = id := by
  induction id with
  | nil => simp [List.takeWhile_cons, ha]
  | cons c cs ih =>
    rw [List.cons_append, List.takeWhile_cons, if_pos (h c (List.mem_cons_self c cs))]
    rw [ih fun d hd => h d (List.mem_cons_of_mem c hd)]

theorem idSuffixMatch_cons_space (c : Char) (l : List Char)
    (h : isPySpace c = true) : idSuffixMatch (c :: l) = idSuffixMatch l := by
  unfold idSuffixMatch
  rw [List.dropWhile_cons, if_pos h]

theorem idSuffixMatch_ann_true (id : List Char) (hid : id ≠ [])
    (hidc : ∀ c ∈ id, isIdChar c = true) :
    idSuffixMatch (' ' :: '\x7b' :: '#' :: (id ++ ['\x7d'])) = true := by
  obtain ⟨i, is, rfl⟩ := List.exists_cons_of_ne_nil hid
  unfold idSuffixMatch
  have hdw : ((' ' :: '\x7b' :: '#' :: (i :: is ++ ['\x7d'])).dropWhile isPySpace)
      = '\x7b' :: '#' :: (i :: is ++ ['\x7d']) := by
    rw [List.dropWhile_cons, if_pos (by decide), List.dropWhile_cons, if_neg (by decide)]
  rw [hdw]
  have htw : ((i :: is ++ ['\x7d']).takeWhile isIdChar) = i :: is :=
    takeWhile_append_single isIdChar (i :: is) '\x7d' hidc (by decide)
  simp only [htw]
  have hdrop : ((i :: is ++ ['\x7d']).drop (i :: is).length) = ['\x7d'] :=
    List.drop_left (i :: is) ['\x7d']
  simp only [hdrop]
  simp

theorem idSuffixMatch_append_ann_false (t : List Char) (ann : List Char)
    (ht : t ≠ []) (hbrace : '\x7b' ∉ t)
    (hlast : ∀ c, t.getLast? = some c → isPySpace c = false) :
    idSuffixMatch (t ++ ann) = false := by
  induction t with
  | nil => exact absurd rfl ht
  | cons c t' ih =>
    by_cases hsp : isPySpace c = true
    · cases t' with
      | nil =>
        have : isPySpace c = false := hlast c rfl
        rw [this] at hsp
        exact absurd hsp (by simp)
      | cons d t'' =>
        rw [List.cons_append, idSuffixMatch_cons_space c _ hsp]
        refine ih (by simp) (fun hm => hbrace (List.mem_cons_of_mem c hm)) ?_
        intro e he
        exact hlast e (by rw [List.getLast?_cons_cons]; exact he)
    · have hsp' : isPySpace c = false := by
        cases hcc : isPySpace c
        · rfl
        · exact absurd hcc hsp
      unfold idSuffixMatch
      rw [List.cons_append, List.dropWhile_cons, if_neg (by simp [hsp'])]
      split
      · next heq =>
        have hc : c = '\x7b' := (List.cons.injEq _ _ _ _ ▸ heq).1
        exact absurd (hc ▸ List.mem_cons_self c t') hbrace
      · rfl

/-- Stripping a well-formed trailing id annotation from a heading text whose
own text contains no opening brace and does not end in whitespace removes
exactly the annotation. -/
theorem headingIdSubL_removes_trailing_id (t id : List Char)
    (hbrace : '\x7b' ∉ t)
    (hlast : ∀ c, t.getLast? = some c → isPySpace c = false)
    (hid : id ≠ []) (hidc : ∀ c ∈ id, isIdChar c = true) :
    headingIdSubL (t ++ ' ' :: '\x7b' :: '#' :: (id ++ ['\x7d'])) = t := by
  induction t with
  | nil =>
    rw [List.nil_append]
    unfold headingIdSubL
    rw [idSuffixMatch_ann_true id hid hidc]
    rfl
  | cons c t' ih =>
    rw [List.cons_append]
    unfold headingIdSubL
    rw [show (c :: (t' ++ ' ' :: '\x7b' :: '#' :: (id ++ ['\x7d'])))
        = (c :: t') ++ (' ' :: '\x7b' :: '#' :: (id ++ ['\x7d'])) from rfl,
      idSuffixMatch_append_ann_false (c :: t') _ (by simp) hbrace hlast]
    simp only [Bool.false_eq_true, if_false]
    have hlast' : ∀ e, t'.getLast? = some e → isPySpace e = false := by
      intro e he
      cases t' with
      | nil => simp at he
      | cons d t'' =>
        exact hlast e (by rw [List.getLast?_cons_cons]; exact he)
    exact congrArg (c :: ·)
      (ih (fun hm => hbrace (List.mem_cons_of_mem c hm)) hlast')

/-- C7, counterexample: a heading carrying the manual id `custom` does not
pass through untouched — the annotation is stripped, the label is the
generated slug, and the manual id does not occur in the output. -/
theorem c7_counterexample :
    md_to_latex_body "# Title \x7b#custom\x7d"
      = "\\section\x7bTitle\x7d\\label\x7bsec:title\x7d\n"
    ∧ pyCount (md_to_latex_body "# Title \x7b#custom\x7d") "custom" = 0 :=
  ⟨by decide, by decide⟩

/-- C7 (amended): a heading line carrying an explicit trailing id annotation
does not pass through untouched: the annotation is stripped before slug
generation, and heading text and label are derived from the remaining text —
the manual id is discarded, not preserved.  (The text must not itself
contain an opening brace or end in whitespace, and the id must be a
non-empty run of id characters, as in the annotation pattern.)  Concretely,
the heading branch on the stripped line `# Title {#custom}` emits the
heading `Title` with no trace of `custom`. -/
theorem c7_manual_id_is_stripped :
    (∀ (t id : List Char), '\x7b' ∉ t →
      (∀ c, t.getLast? = some c → isPySpace c = false) →
      id ≠ [] → (∀ c ∈ id, isIdChar c = true) →
      headingIdSubL (t ++ ' ' :: '\x7b' :: '#' :: (id ++ ['\x7d'])) = t)
    ∧ stepHeading 1 2 (pyStripL "# Title \x7b#custom\x7d".data) initSt
      = { initSt with out := [Emit.heading 1 "Title".data, Emit.ctrl []] } :=
  ⟨headingIdSubL_removes_trailing_id, by decide⟩

/-- C7, witness: the general statement at `Title` / `custom`. -/
theorem c7_witness :
    ('\x7b' ∉ "Title".data)
    ∧ headingIdSubL ("Title".data ++ ' ' :: '\x7b' :: '#' :: ("custom".data ++ ['\x7d']))
      = "Title".data :=
  ⟨by decide,
   c7_manual_id_is_stripped.1 "Title".data "custom".data (by decide) (by decide)
     (by decide) (by decide)⟩

/-! ## C8: declared table-of-contents sections -/

/-- Any line whose stripped form starts with the level-1 heading marker is
processed by the heading branch, independently of the heading text. -/
theorem step_heading1 (st : St) (raw : List Char)
    (hcode : st.in_code = false)
    (hpre : "# ".data.isPrefixOf (pyStripL raw) = true) :
    step st raw = stepHeading 1 2 (pyStripL raw) (closeQuote st) := by
  obtain ⟨r, hr⟩ : ∃ r, pyStripL raw = '#' :: ' ' :: r := by
    have hp : "# ".data <+: pyStripL raw := List.isPrefixOf_iff_prefix.mp hpre
    obtain ⟨r, hr⟩ := hp
    exact ⟨r, hr.symm⟩
  have hfence : fenceTag? (pyStripL raw) = none := by
    rw [hr]
    exact rfl
  have hq : quoteRest? raw = none := by
    have hh : (raw.dropWhile isPySpace).head? = some '#' := by
      apply pyStripL_head
      rw [hr]
      rfl
    obtain ⟨dd, hdw⟩ : ∃ dd, raw.dropWhile isPySpace = '#' :: dd := by
      rcases hx : raw.dropWhile isPySpace with _ | ⟨d, dd⟩
      · try rw [hx] at hh
        simp at hh
      · try rw [hx] at hh
        simp only [List.head?_cons, Option.some.injEq] at hh
        subst hh
        exact ⟨dd, rfl⟩
    unfold quoteRest?
    rw [hdw]
    rfl
  have hnc : ¬(st.in_code = true) := by simp [hcode]
  unfold step
  rw [if_neg hnc, hfence, hq, hr]
  unfold stepMain
  have hall : ('#' :: ' ' :: r).all (· = '-') = false := by
    rw [List.all_cons]
    simp
  have hHR : isHR ('#' :: ' ' :: r) = false := by
    unfold isHR
    rw [hall, Bool.and_false]
  have hp2 : "# ".data.isPrefixOf ('#' :: ' ' :: r) = true := by
    rw [List.isPrefixOf_iff_prefix]
    exact ⟨r, rfl⟩
  simp [hHR, hp2]

/-- C8 (amended): the scanner has no table-of-contents handling at all: any
line whose stripped form starts with the heading marker is processed by one
and the same heading branch regardless of its text — in particular a
`# Table of Contents` heading is emitted as an ordinary labelled section,
and no subsequent lines are discarded (both labels of the counterexample
document appear, in order). -/
theorem c8_toc_heading_processing_is_uniform :
    (∀ (st : St) (raw : List Char), st.in_code = false →
      "# ".data.isPrefixOf (pyStripL raw) = true →
      step st raw = stepHeading 1 2 (pyStripL raw) (closeQuote st))
    ∧ labelsOf "# Table of Contents\nkeep me\n# Next"
      = ["sec:table-of-contents".data, "sec:next".data] :=
  ⟨step_heading1, by decide⟩

/-- C8, witness: the uniform heading branch applied to the literal
table-of-contents heading. -/
theorem c8_witness :
    "# ".data.isPrefixOf (pyStripL "# Table of Contents".data) = true
    ∧ step initSt "# Table of Contents".data
      = stepHeading 1 2 (pyStripL "# Table of Contents".data) (closeQuote initSt) :=
  ⟨by decide,
   c8_toc_heading_processing_is_uniform.1 initSt "# Table of Contents".data rfl
     (by decide)⟩

/-- C8, counterexample: a "Table of Contents" heading and the lines after it
are not discarded; the heading is emitted like any other heading and the
following paragraph is kept. -/
theorem c8_counterexample :
    md_to_latex_body "# Table of Contents\nkeep me\n# Next"
      = "\\section\x7bTable of Contents\x7d\\label\x7bsec:table-of-contents\x7d\n\nkeep me\n\n\\section\x7bNext\x7d\\label\x7bsec:next\x7d\n"
    ∧ pyCount (md_to_latex_body "# Table of Contents\nkeep me\n# Next") "keep me" = 1 :=
  ⟨by decide, by decide⟩

end Trustforge
